import Mathlib

/-!
Verification development for the websitegenerator backend (src/backend/app.py).

The Python functions relevant to the documented image-resolution pipeline,
HTML post-processing and page persistence are shallowly embedded as
executable Lean definitions.  Strings are modelled over their `List Char`
data (ASCII fragment: `str.lower()` is modelled on the letters A-Z, which
covers every string manipulated by the embedded code paths); machine-level
details (HTTP transport, filesystem) are modelled as explicit environments.
Every constant-pattern regular expression of the source is hand-compiled to
a dedicated scanning function implementing Python `re` semantics (leftmost
match, lazy quantifiers, case-insensitive flags) for that fixed pattern.
-/

namespace WebGen

/-! ## Python string primitives -/

/-- Whitespace characters recognised by Python `str.split()` / `str.strip()`
(ASCII fragment). -/
def pyIsSpace (c : Char) : Bool :=
  c == ' ' || c == '\t' || c == '\n' || c == '\r' || c == '\x0b' || c == '\x0c'

/-- The 26 uppercase ASCII letters with their lowercase forms. -/
def upperChars : List (Char × Char) :=
  [('A', 'a'), ('B', 'b'), ('C', 'c'), ('D', 'd'), ('E', 'e'), ('F', 'f'),
   ('G', 'g'), ('H', 'h'), ('I', 'i'), ('J', 'j'), ('K', 'k'), ('L', 'l'),
   ('M', 'm'), ('N', 'n'), ('O', 'o'), ('P', 'p'), ('Q', 'q'), ('R', 'r'),
   ('S', 's'), ('T', 't'), ('U', 'u'), ('V', 'v'), ('W', 'w'), ('X', 'x'),
   ('Y', 'y'), ('Z', 'z')]

/-- Python `str.lower()` on a single character (ASCII fragment). -/
def pyLowerC (c : Char) : Char :=
  ((upperChars.find? (fun p => p.1 == c)).map (fun p => p.2)).getD c

/-- Python `str.lower()` on character data. -/
def pyLowerL (l : List Char) : List Char := l.map pyLowerC

/-- Python `str.lower()` on a string. -/
def pyLowerS (s : String) : String := ⟨pyLowerL s.data⟩

/-- Scanner for Python `str.split()` (no argument): split on whitespace
runs, dropping empty tokens.  `cur` holds the characters of the token in
progress, reversed. -/
def wordsAux : List Char → List Char → List (List Char)
  | cur, [] => if cur.isEmpty then [] else [cur.reverse]
  | cur, c :: cs =>
    if pyIsSpace c then
      if cur.isEmpty then wordsAux [] cs else cur.reverse :: wordsAux [] cs
    else wordsAux (c :: cur) cs

/-- Python `str.split()` with no argument. -/
def pySplitWs (s : String) : List String := (wordsAux [] s.data).map (fun l => ⟨l⟩)

/-- Python `" ".join(words)` at the character-data level. -/
def joinWords : List (List Char) → List Char
  | [] => []
  | [w] => w
  | w :: ws => w ++ ' ' :: joinWords ws

/-- Python `" ".join(words)` on strings. -/
def joinWordsS (ws : List String) : String := ⟨joinWords (ws.map String.data)⟩

/-- Order-preserving deduplication keeping first occurrences, as
`list(dict.fromkeys(words))` does in Python; `seen` accumulates the
values already emitted. -/
def pyDedupAux (seen : List String) : List String → List String
  | [] => []
  | x :: xs => if x ∈ seen then pyDedupAux seen xs else x :: pyDedupAux (x :: seen) xs

/-- Python `list(dict.fromkeys(l))`. -/
def pyDedup (l : List String) : List String := pyDedupAux [] l

/-- Does `pat` occur at the head of `s`? (Python-style literal matching.) -/
def startsWithL : List Char → List Char → Bool
  | [], _ => true
  | _ :: _, [] => false
  | p :: ps, c :: cs => p == c && startsWithL ps cs

/-- Does `pat` occur at the end of `s`? -/
def endsWithL (pat s : List Char) : Bool := startsWithL pat.reverse s.reverse

/-- Case-insensitive `startsWithL`; the pattern is given in lowercase. -/
def startsWithCI : List Char → List Char → Bool
  | [], _ => true
  | _ :: _, [] => false
  | p :: ps, c :: cs => p == pyLowerC c && startsWithCI ps cs

/-- Index of the first occurrence of `pat` in `s`, if any. -/
def findSub (pat : List Char) : List Char → Option Nat
  | [] => if pat.isEmpty then some 0 else none
  | c :: cs => if startsWithL pat (c :: cs) then some 0 else (findSub pat cs).map (· + 1)

/-- Index of the first case-insensitive occurrence of `pat` (given in
lowercase) in `s`, if any. -/
def findSubCI (pat : List Char) : List Char → Option Nat
  | [] => if pat.isEmpty then some 0 else none
  | c :: cs => if startsWithCI pat (c :: cs) then some 0 else (findSubCI pat cs).map (· + 1)

/-- Python `pat in s` substring membership. -/
def containsSub (pat s : List Char) : Bool := (findSub pat s).isSome

/-- Python `str.strip()` at the character-data level. -/
def pyStripL (l : List Char) : List Char :=
  ((l.dropWhile pyIsSpace).reverse.dropWhile pyIsSpace).reverse

/-- Python `str.strip()`. -/
def pyStripS (s : String) : String := ⟨pyStripL s.data⟩

/-- Python `str.replace(pat, repl)` (all occurrences, scanning left to
right, non-overlapping); fuel bounds the recursion and is never exhausted
when instantiated with the string length plus one because the embedded
call sites always pass a non-empty `pat`. -/
def replaceAllGo (pat repl : List Char) : Nat → List Char → List Char
  | 0, s => s
  | _, [] => []
  | fuel + 1, c :: cs =>
    if startsWithL pat (c :: cs) && !pat.isEmpty then
      repl ++ replaceAllGo pat repl fuel (List.drop pat.length (c :: cs))
    else c :: replaceAllGo pat repl fuel cs

/-- Python `str.replace(pat, repl)` at the character-data level. -/
def replaceAllL (pat repl s : List Char) : List Char :=
  replaceAllGo pat repl (s.length + 1) s

/-- Scanner for Python `str.split(sep)` with an explicit non-empty
separator (empty pieces are kept). -/
def splitSepGo (sep : List Char) : Nat → List Char → List Char → List (List Char)
  | _, acc, [] => [acc.reverse]
  | 0, acc, s => [acc.reverse ++ s]
  | fuel + 1, acc, c :: cs =>
    if startsWithL sep (c :: cs) && !sep.isEmpty then
      acc.reverse :: splitSepGo sep fuel [] (List.drop sep.length (c :: cs))
    else splitSepGo sep fuel (c :: acc) cs

/-- Python `str.split(sep)` at the character-data level. -/
def splitSepL (sep s : List Char) : List (List Char) :=
  splitSepGo sep (s.length + 1) [] s

/-- Python `str.split(sep)` on strings. -/
def pySplitSep (sep s : String) : List String :=
  (splitSepL sep.data s.data).map (fun l => ⟨l⟩)

/-- The digits of a decimal numeral, as a number. -/
def digitsToNat (ds : List Char) : Option Nat :=
  if !ds.isEmpty && ds.all Char.isDigit then
    some (ds.foldl (fun a c => a * 10 + (c.toNat - 48)) 0)
  else none

/-- Python `int(s)` on a decimal string: surrounding whitespace is
allowed, then an optional sign and at least one digit; anything else
raises `ValueError` (modelled as `none`). -/
def pyIntOfString (s : String) : Option Int :=
  match pyStripL s.data with
  | '+' :: ds => (digitsToNat ds).map Int.ofNat
  | '-' :: ds => (digitsToNat ds).map (fun n => -(n : Int))
  | ds => (digitsToNat ds).map Int.ofNat

/-- The last `'_'`-separated segment of a string, as in
`image_id.split('_')[-1]` (the split of any string is non-empty, so the
default is never used). -/
def lastUnderscoreSeg (s : String) : String :=
  ⟨(splitSepL ['_'] s.data).getLastD []⟩

/-! ## refine_query and check_relevance (app.py lines 76-124) -/

/-- The stop-word set of `refine_query`. -/
def stop_words : List String :=
  ["a", "an", "the", "with", "at", "in", "on", "of", "and", "page", "template"]

/-- The context-keyword table of `refine_query`. -/
def context_keywords : List (String × List String) :=
  [("fruits", ["fruit", "fresh", "organic", "apple", "banana", "orange"]),
   ("voyages", ["travel", "landscape", "destination", "tourist"]),
   ("technologie", ["tech", "computer", "electronic", "device"])]

/-- Python truthiness of an optional string argument (`None` and `""` are
falsy). -/
def pyTruthy : Option String → Bool
  | none => false
  | some s => !(s == "")

/-- The keywords contributed by one page/folder context argument in
`refine_query`: for a truthy context, `page_name.lower().split()[0]` is
looked up in `context_keywords`; the indexing raises `IndexError`
(modelled as `none`) when the lowered context has no words. -/
def ctxWords (ctx : Option String) : Option (List String) :=
  if pyTruthy ctx then
    match pySplitWs (pyLowerS (ctx.getD "")) with
    | [] => none
    | k :: _ => some (((context_keywords.find? (fun e => e.1 == k)).map (fun e => e.2)).getD [])
  else some []

/-- The token list produced by `refine_query` before joining: lowercased
non-stop-words of the query, then the context keywords for page and
folder, deduplicated keeping first occurrences and truncated to 5. -/
def refineWords (query : String) (page_name folder_name : Option String) :
    Option (List String) :=
  let words := ((pySplitWs query).map pyLowerS).filter (fun w => !stop_words.contains w)
  match ctxWords page_name with
  | none => none
  | some ws1 =>
    match ctxWords folder_name with
    | none => none
    | some ws2 => some ((pyDedup (words ++ ws1 ++ ws2)).take 5)

/-- `refine_query` (app.py lines 76-106).  `none` models the `IndexError`
raised on a truthy, all-whitespace context argument. -/
def refine_query (query : String) (page_name : Option String := none)
    (folder_name : Option String := none) : Option String :=
  match refineWords query page_name folder_name with
  | none => none
  | some ws => some (joinWordsS ws)

/-- `check_relevance` (app.py lines 116-124): both lists are lowercased
and the keywords occurring among the tags are counted (with multiplicity
on the keyword side). -/
def check_relevance (tags keywords : List String) (min_matches : Int := 2) : Bool :=
  let t := tags.map pyLowerS
  let k := keywords.map pyLowerS
  min_matches ≤ ((k.filter (fun kw => t.contains kw)).length : Int)

/-! ## Image providers and the fetch_image pipeline (app.py lines 126-313)

Outbound HTTP is modelled by an explicit environment `Env`: for each
(query, page) pair a provider either raises (HTTP/network error or
malformed top-level payload, all caught by the per-attempt `except`)
or delivers a well-formed list of result records.  A `.error ()` value
of `Except Unit` models a raised Python exception. -/

/-- One photo record of a Pexels search response (the fields read by the
code; `alt`/`description` default to `""` via `dict.get`). -/
structure PexelsPhoto where
  alt : String
  description : String
  medium : String
  photographer : String
  photographerUrl : String
deriving DecidableEq

/-- One hit record of a Pixabay search response. -/
structure PixabayHit where
  tags : String
  webformatURL : String
  user : String
  userId : String
deriving DecidableEq

/-- The image dict returned by the pipeline: a success dict carries an
attribution entry, the total-failure sentinel `{url:"", source:""}` has
none. -/
structure ImageResult where
  url : String
  attribution : Option String
  source : String
deriving DecidableEq

/-- The empty sentinel `{"url": "", "source": ""}`. -/
def emptyResult : ImageResult := { url := "", attribution := none, source := "" }

/-- The ambient state the pipeline runs against: whether each provider
API key is set, and each provider's response per (query, page). -/
structure Env where
  pexelsKey : Bool
  pixabayKey : Bool
  pexels : String → Int → Except Unit (List PexelsPhoto)
  pixabay : String → Int → Except Unit (List PixabayHit)

/-- Tags computed for a Pexels photo:
`(photo.get('alt','') + ' ' + photo.get('description','')).lower().split()`. -/
def pexelsTags (ph : PexelsPhoto) : List String :=
  pySplitWs (pyLowerS (ph.alt ++ " " ++ ph.description))

/-- The success dict built from a Pexels photo. -/
def mkPexelsResult (ph : PexelsPhoto) : ImageResult :=
  { url := ph.medium,
    attribution := some ("Photo by <a href=\"" ++ ph.photographerUrl ++ "\">" ++
      ph.photographer ++ "</a> on <a href=\"https://www.pexels.com\">Pexels</a>"),
    source := "Pexels" }

/-- Tags computed for a Pixabay hit: `hit.get('tags','').split(', ')`. -/
def pixabayTags (hit : PixabayHit) : List String := pySplitSep ", " hit.tags

/-- The success dict built from a Pixabay hit. -/
def mkPixabayResult (hit : PixabayHit) : ImageResult :=
  { url := hit.webformatURL,
    attribution := some ("Photo by <a href=\"https://pixabay.com/users/" ++ hit.user ++
      "-" ++ hit.userId ++ "/\">" ++ hit.user ++
      "</a> on <a href=\"https://pixabay.com\">Pixabay</a>"),
    source := "Pixabay" }

/-- The `while attempt < max_attempts` loop of `fetch_image_from_pexels`:
`fuel` counts the attempts still allowed, `pg` is `page + attempt`, and
`fallback` is the first photo seen so far (`fallback.getD p` renders the
source's `if not fallback_photo: fallback_photo = data['photos'][0]`).
A raised provider error or an empty `photos` list advances to the next
attempt; otherwise the first relevant photo, if any, is returned.  After
the loop the fallback (if any) is returned. -/
def pexelsAttempts (env : Env) (q : String) (keywords : List String) :
    Nat → Int → Option PexelsPhoto → Except Unit (Option ImageResult)
  | 0, _, fallback => .ok (fallback.map mkPexelsResult)
  | fuel + 1, pg, fallback =>
    match env.pexels q pg with
    | .error _ => pexelsAttempts env q keywords fuel (pg + 1) fallback
    | .ok [] => pexelsAttempts env q keywords fuel (pg + 1) fallback
    | .ok (p :: ps) =>
      match (p :: ps).find? (fun ph => check_relevance (pexelsTags ph) keywords) with
      | some ph => .ok (some (mkPexelsResult ph))
      | none => pexelsAttempts env q keywords fuel (pg + 1) (some (fallback.getD p))

/-- `fetch_image_from_pexels` (app.py lines 126-195).  Raises (`.error`)
when the Pexels API key is unset — that check sits before the
`try`/`except` of the retry loop — or when `int(image_id.split('_')[-1])`
fails; `.ok none` is the Python `None` returned when no photo was ever
seen. -/
def fetch_image_from_pexels (env : Env) (query image_id : String)
    (max_attempts : Nat := 3) : Except Unit (Option ImageResult) :=
  if !env.pexelsKey then .error () else
  match refine_query query none none with
  | none => .error ()
  | some refined =>
    match pyIntOfString (lastUnderscoreSeg image_id) with
    | none => .error ()
    | some base => pexelsAttempts env refined (pySplitWs refined) max_attempts (base + 1) none

/-- The attempt loop of `fetch_image_from_pixabay`, mirroring
`pexelsAttempts`. -/
def pixabayAttempts (env : Env) (q : String) (keywords : List String) :
    Nat → Int → Option PixabayHit → Except Unit (Option ImageResult)
  | 0, _, fallback => .ok (fallback.map mkPixabayResult)
  | fuel + 1, pg, fallback =>
    match env.pixabay q pg with
    | .error _ => pixabayAttempts env q keywords fuel (pg + 1) fallback
    | .ok [] => pixabayAttempts env q keywords fuel (pg + 1) fallback
    | .ok (h :: hs) =>
      match (h :: hs).find? (fun hit => check_relevance (pixabayTags hit) keywords) with
      | some hit => .ok (some (mkPixabayResult hit))
      | none => pixabayAttempts env q keywords fuel (pg + 1) (some (fallback.getD h))

/-- `fetch_image_from_pixabay` (app.py lines 197-266). -/
def fetch_image_from_pixabay (env : Env) (query image_id : String)
    (max_attempts : Nat := 3) : Except Unit (Option ImageResult) :=
  if !env.pixabayKey then .error () else
  match refine_query query none none with
  | none => .error ()
  | some refined =>
    match pyIntOfString (lastUnderscoreSeg image_id) with
    | none => .error ()
    | some base => pixabayAttempts env refined (pySplitWs refined) max_attempts (base + 1) none

/-- The term-association table of `generate_alternative_queries`. -/
def term_associations : List (String × List String) :=
  [("fruits", ["produce", "fresh food", "healthy snack"]),
   ("voyages", ["vacation", "tourism", "adventure"]),
   ("technologie", ["gadget", "innovation", "digital"])]

/-- Python `page_name or folder_name or ""`. -/
def effContext (page_name folder_name : Option String) : String :=
  if pyTruthy page_name then page_name.getD ""
  else if pyTruthy folder_name then folder_name.getD "" else ""

/-- `generate_alternative_queries` (app.py lines 296-313), without its
decorator.  `context.lower().split()[0]` raises `IndexError` (modelled as
`.error ()`) when the effective context has no words — in particular when
both context arguments are falsy. -/
def generate_alternative_queries (base_query : String)
    (page_name folder_name : Option String) : Except Unit (List String) :=
  match pySplitWs (pyLowerS (effContext page_name folder_name)) with
  | [] => .error ()
  | k :: _ =>
    [base_query] ++ (((term_associations.find? (fun e => e.1 == k)).map (fun e => e.2)).getD [])
    |> .ok

/-- The `tenacity` retry combinator `retry(stop=stop_after_attempt(n),
retry=retry_if_exception_type(...))`: the wrapped call is attempted at
most `maxAttempts` times; an exception matching the predicate triggers a
retry while attempts remain, any other exception propagates at once, and
on exhaustion the last exception propagates.  The attempt index is passed
to the call so that a stateful transport can be modelled. -/
def tenacityRetryGo {E A : Type} (p : E → Bool) (f : Nat → Except E A) :
    Nat → Nat → Except E A
  | idx, rem =>
    match f idx, rem with
    | .ok a, _ => .ok a
    | .error e, 0 => .error e
    | .error e, r + 1 => if p e then tenacityRetryGo p f (idx + 1) r else .error e

/-- Entry point of the retry combinator (`maxAttempts` total calls). -/
def tenacityRetry {E A : Type} (p : E → Bool) (maxAttempts : Nat)
    (f : Nat → Except E A) : Except E A :=
  tenacityRetryGo p f 0 (maxAttempts - 1)

/-- `generate_alternative_queries` as actually installed in the module:
the source attaches `@retry(stop=stop_after_attempt(3), ...,
retry=retry_if_exception_type(requests.exceptions.HTTPError))` to this
function.  Its only possible exception is the `IndexError` above, which
is not an `HTTPError`, so the retry predicate is constantly false. -/
def generate_alternative_queries_retried (base_query : String)
    (page_name folder_name : Option String) : Except Unit (List String) :=
  tenacityRetry (fun _ => false) 3
    (fun _ => generate_alternative_queries base_query page_name folder_name)

/-- Exceptions observable from `call_groq_api`. -/
inductive GroqExc where
  | httpError (status : Nat)
  | requestError
deriving DecidableEq

/-- Does an exception match `retry_if_exception_type(HTTPError)`? -/
def isHTTPErrorExc : GroqExc → Bool
  | .httpError _ => true
  | .requestError => false

/-- `call_groq_api` (app.py lines 314-341): it performs a single
`requests.post` — modelled as one transport outcome, either a raised
transport exception or a `(status, payload)` response —, calls
`raise_for_status()` (an `HTTPError` for any status ≥ 400, 429 included)
and re-raises every exception after logging.  No retry decorator is
attached to this function in the source. -/
def call_groq_api {A : Type} (resp : Except Unit (Nat × A)) : Except GroqExc A :=
  match resp with
  | .error _ => .error .requestError
  | .ok (status, payload) => if 400 ≤ status then .error (.httpError status) else .ok payload

/-- The alternative-query loop of `fetch_image`: try Pexels then Pixabay
for each alternative, short-circuiting on the first truthy result; the
empty sentinel is returned when the list is exhausted. -/
def fetchAlternatives (env : Env) (image_id : String) :
    List String → Except Unit ImageResult
  | [] => .ok emptyResult
  | q :: qs =>
    match fetch_image_from_pexels env q image_id with
    | .error e => .error e
    | .ok (some r) => .ok r
    | .ok none =>
      match fetch_image_from_pixabay env q image_id with
      | .error e => .error e
      | .ok (some r) => .ok r
      | .ok none => fetchAlternatives env image_id qs

/-- `fetch_image` (app.py lines 267-289): refine the query with context,
try Pexels with the refined query, and only if that call returned `None`
generate alternative queries and try Pexels then Pixabay for each. -/
def fetch_image (env : Env) (query image_id : String)
    (page_name : Option String := none) (folder_name : Option String := none) :
    Except Unit ImageResult :=
  match refine_query query page_name folder_name with
  | none => .error ()
  | some refined =>
    match fetch_image_from_pexels env refined image_id with
    | .error e => .error e
    | .ok (some r) => .ok r
    | .ok none =>
      match generate_alternative_queries_retried refined page_name folder_name with
      | .error e => .error e
      | .ok alternatives => fetchAlternatives env image_id alternatives

/-! ## clean_code (app.py lines 343-391)

Each regular expression of `clean_code` is a fixed pattern and is
hand-compiled to a scanner below.  All scanners mirror `re` scanning:
positions are tried left to right, a failed position advances by one
character, a successful match is consumed entirely and scanning resumes
after it.  `fuel` arguments bound the recursion; the wrappers pass the
string length plus one, which the scanners never exhaust because every
step consumes at least one character of input. -/

/-- Scanner for `re.search(r'```html\n([\s\S]*?)\n```', ...)`: the first
position carrying the literal opener such that the closer occurs later;
the lazy group captures up to the first subsequent closer. -/
def extractFenceGo : Nat → List Char → Option (List Char)
  | 0, _ => none
  | _, [] => none
  | fuel + 1, c :: cs =>
    if startsWithL "```html\n".data (c :: cs) then
      match findSub "\n```".data (List.drop 8 (c :: cs)) with
      | some k => some (List.take k (List.drop 8 (c :: cs)))
      | none => extractFenceGo fuel cs
    else extractFenceGo fuel cs

/-- Group 1 of the fenced-block search, if the pattern matches. -/
def extractFence (s : List Char) : Option (List Char) := extractFenceGo (s.length + 1) s

/-- Scanner for `re.sub(r'```html\n|```', '', ...)`: each occurrence of
either alternative (tried in this order) is deleted. -/
def stripFencesGo : Nat → List Char → List Char
  | 0, s => s
  | _, [] => []
  | fuel + 1, c :: cs =>
    if startsWithL "```html\n".data (c :: cs) then
      stripFencesGo fuel (List.drop 8 (c :: cs))
    else if startsWithL "```".data (c :: cs) then
      stripFencesGo fuel (List.drop 3 (c :: cs))
    else c :: stripFencesGo fuel cs

/-- `re.sub(r'```html\n|```', '', s)`. -/
def stripFences (s : List Char) : List Char := stripFencesGo (s.length + 1) s

/-- Scanner for `re.sub(r'<!--[\s\S]*?-->', '', ...)`: from each `<!--`
the lazy body runs to the nearest `-->`; an unterminated opener does not
match and is kept. -/
def stripCommentsGo : Nat → List Char → List Char
  | 0, s => s
  | _, [] => []
  | fuel + 1, c :: cs =>
    if startsWithL "<!--".data (c :: cs) then
      match findSub "-->".data (List.drop 4 (c :: cs)) with
      | some k => stripCommentsGo fuel (List.drop (k + 3) (List.drop 4 (c :: cs)))
      | none => c :: stripCommentsGo fuel cs
    else c :: stripCommentsGo fuel cs

/-- `re.sub(r'<!--[\s\S]*?-->', '', s)`. -/
def stripComments (s : List Char) : List Char := stripCommentsGo (s.length + 1) s

/-- The meta-commentary openers of the paragraph-stripping pattern, in
alternation order, lowercased for the `re.I` comparison. -/
def metaPhrases : List (List Char) :=
  ["this code creates".data, "this html page is designed".data, "here is".data,
   "generated by".data, "explanation".data, "note".data, "description".data]

/-- Length of the match of
`<p[^>]*>\s*(This code creates|...|Description)[\s\S]*?</p>` (flag
`re.I`) at the head of `s`, if it matches there: after `<p` the class
`[^>]*` can only run to the first `>`, then `\s*` greedily takes the
whitespace run (each alternative starts with a letter, so no backtracking
into it is possible), then the first alternative matching
case-insensitively is taken, and the lazy tail runs to the nearest
case-insensitive `</p>`. -/
def metaMatchLen (s : List Char) : Option Nat :=
  if startsWithCI "<p".data s then
    match findSub ['>'] (List.drop 2 s) with
    | none => none
    | some j =>
      let afterGt := List.drop (j + 1) (List.drop 2 s)
      let w := (afterGt.takeWhile pyIsSpace).length
      let afterWs := List.drop w afterGt
      match metaPhrases.find? (fun p => startsWithCI p afterWs) with
      | none => none
      | some p =>
        match findSubCI "</p>".data (List.drop p.length afterWs) with
        | none => none
        | some k => some (2 + j + 1 + w + p.length + k + 4)
  else none

/-- Scanner for the meta-commentary-paragraph `re.sub`. -/
def stripMetaPGo : Nat → List Char → List Char
  | 0, s => s
  | _, [] => []
  | fuel + 1, c :: cs =>
    match metaMatchLen (c :: cs) with
    | some n => stripMetaPGo fuel (List.drop n (c :: cs))
    | none => c :: stripMetaPGo fuel cs

/-- The meta-commentary-paragraph `re.sub` of `clean_code`. -/
def stripMetaP (s : List Char) : List Char := stripMetaPGo (s.length + 1) s

/-- Scanner for `re.sub(r'<title>.*?</title>', repl, ..., flags=re.I)`:
`.` does not cross newlines, so a position matches exactly when the
nearest case-insensitive `</title>` after its `<title>` is reached
without passing a newline.  The replacement text is spliced in literally
(faithful to `re.sub` for replacement strings without backslashes, which
is the case for every embedded call site). -/
def forceTitleGo (repl : List Char) : Nat → List Char → List Char
  | 0, s => s
  | _, [] => []
  | fuel + 1, c :: cs =>
    if startsWithCI "<title>".data (c :: cs) then
      match findSubCI "</title>".data (List.drop 7 (c :: cs)) with
      | some k =>
        if (List.take k (List.drop 7 (c :: cs))).all (fun ch => ch ≠ '\n') then
          repl ++ forceTitleGo repl fuel (List.drop (7 + k + 8) (c :: cs))
        else c :: forceTitleGo repl fuel cs
      | none => c :: forceTitleGo repl fuel cs
    else c :: forceTitleGo repl fuel cs

/-- The `<title>` rewrite of `clean_code`: every (case-insensitive,
single-line) title element is replaced by
`<title>{page_name.replace(".html", "")} - My Website</title>`. -/
def forceTitle (page_name : String) (s : List Char) : List Char :=
  forceTitleGo ("<title>".data ++ replaceAllL ".html".data [] page_name.data ++
    " - My Website</title>".data) (s.length + 1) s

/-- The final structure check `re.search(r'<html[\s\S]*?</html>', ..., re.I)`:
some case-insensitive `<html` is followed (five characters later or more)
by a case-insensitive `</html>`. -/
def validateHtml (s : List Char) : Bool :=
  match findSubCI "<html".data s with
  | none => false
  | some i => (findSubCI "</html>".data (List.drop (i + 5) s)).isSome

/-- The document wrapper
`f'<!DOCTYPE html>\n<html lang="en">\n{cleaned.strip()}\n</html>'`. -/
def wrapDoc (s : List Char) : List Char :=
  "<!DOCTYPE html>\n<html lang=\"en\">\n".data ++ pyStripL s ++ "\n</html>".data

/-- The `<head>` block substituted for `<html>` openers when no `<head>`
is present. -/
def headBlock : String :=
  "<html lang=\"en\">\n<head>\n<meta charset=\"UTF-8\">\n<meta name=\"viewport\" content=\"width=device-width, initial-scale=1.0\">\n</head>\n"

/-- The terminal error page substituted when the final validation fails. -/
def errorPage (page_name : String) : List Char :=
  ("<!DOCTYPE html>\n<html lang=\"en\">\n<head>\n<meta charset=\"UTF-8\">\n<meta name=\"viewport\" content=\"width=device-width, initial-scale=1.0\">\n<title>" ++
   ⟨replaceAllL ".html".data [] page_name.data⟩ ++
   " - My Website</title>\n</head>\n<body>\n<p>Error: Invalid HTML generated for " ++
   page_name ++ "</p>\n</body>\n</html>").data

/-- Step 1 of `clean_code`: `html_match.group(1) if html_match else html_code`. -/
def fenceStep (s : List Char) : List Char :=
  match extractFence s with
  | some inner => inner
  | none => s

/-- The doctype guard of `clean_code`: wrap unless the stripped text
starts with `<!DOCTYPE html>`. -/
def docStep (s : List Char) : List Char :=
  if !startsWithL "<!DOCTYPE html>".data (pyStripL s) then wrapDoc s else s

/-- The `<html` guard of `clean_code`: wrap unless `<html` occurs. -/
def htmlStep (s : List Char) : List Char :=
  if !containsSub "<html".data s then wrapDoc s else s

/-- The `<head>` guard of `clean_code`: when no `<head>` occurs, every
`<html` occurrence is replaced by the head block. -/
def headStep (s : List Char) : List Char :=
  if !containsSub "<head>".data s then replaceAllL "<html".data headBlock.data s else s

/-- The `<body>` guard of `clean_code`: when no `<body>` occurs, a
`<body>` opener is spliced after every `</head>` and a closing
`</body>` is appended. -/
def bodyStep (s : List Char) : List Char :=
  if !containsSub "<body>".data s then
    replaceAllL "</head>".data "</head>\n<body>\n".data s ++ "\n</body>".data
  else s

/-- The `</html>` guard of `clean_code`. -/
def closeStep (s : List Char) : List Char :=
  if !endsWithL "</html>".data s then s ++ "\n</html>".data else s

/-- The terminal validation of `clean_code`: on failure the whole output
is replaced by the error page. -/
def validateStep (page_name : String) (s : List Char) : List Char :=
  if !validateHtml s then errorPage page_name else s

/-- The chain of reassignments of `cleaned` in `clean_code`, composed
left to right, ending with the final `strip()`. -/
def clean_core (page_name : String) (s : List Char) : List Char :=
  pyStripL (validateStep page_name (closeStep (forceTitle page_name (bodyStep (headStep
    (htmlStep (docStep (stripMetaP (stripComments (stripFences (fenceStep s)))))))))))

/-- `clean_code` (app.py lines 343-391). -/
def clean_code (html_code page_name : String) : String :=
  ⟨clean_core page_name html_code.data⟩

/-! ## save_page path handling (app.py lines 1054-1092)

The persistence endpoint joins the requested page path onto the content
root `'static'` with `os.path.join`, normalises it with
`os.path.normpath` and rejects the request when the result does not
*string-prefix* `'static'`; otherwise it writes the file at the resolved
path.  Paths are POSIX paths. -/

/-- `posixpath.join a b` for two components: an absolute second argument
replaces the first; otherwise a separator is inserted unless one is
already present. -/
def pyJoin (a b : String) : String :=
  if startsWithL ['/'] b.data then b
  else if a.data.isEmpty || endsWithL ['/'] a.data then a ++ b
  else a ++ "/" ++ b

/-- The component loop of `posixpath.normpath`: empty and `.` components
are dropped; `..` pops the previous component unless there is none and
the path is relative (then it is kept) or the previous component is
itself a kept `..`. -/
def normLoop (slashes : Nat) : List (List Char) → List (List Char) → List (List Char)
  | acc, [] => acc
  | acc, comp :: rest =>
    if comp = [] ∨ comp = ['.'] then normLoop slashes acc rest
    else if comp ≠ ['.', '.'] ∨ (slashes = 0 ∧ acc = []) ∨ acc.getLast? = some ['.', '.'] then
      normLoop slashes (acc ++ [comp]) rest
    else if acc ≠ [] then normLoop slashes acc.dropLast rest
    else normLoop slashes acc rest

/-- `'/'.join` of path components. -/
def joinSlash : List (List Char) → List Char
  | [] => []
  | [c] => c
  | c :: cs => c ++ '/' :: joinSlash cs

/-- `posixpath.normpath`. -/
def pyNormpath (p : String) : String :=
  if p.data.isEmpty then "." else
  let slashes : Nat :=
    if startsWithL ['/'] p.data then
      if startsWithL ['/', '/'] p.data ∧ ¬ startsWithL ['/', '/', '/'] p.data then 2 else 1
    else 0
  let comps := splitSepL ['/'] p.data
  let res := List.replicate slashes '/' ++ joinSlash (normLoop slashes [] comps)
  if res.isEmpty then "." else ⟨res⟩

/-- The observable outcome of a `save-page` request: one of the three
4xx error responses, or a write of `content` at the resolved path. -/
inductive SaveOutcome where
  | missingPath
  | missingCode
  | unauthorized
  | write (path : String) (content : String)
deriving DecidableEq

/-- The path resolved by `save_page`:
`os.path.normpath(os.path.join('static', page_path))`. -/
def save_page_resolved (page_path : String) : String :=
  pyNormpath (pyJoin "static" page_path)

/-- `save_page` (app.py lines 1054-1092), as a function of the two
request fields (absent JSON fields arrive as falsy values, subsumed by
the empty string). -/
def save_page (page_path code : String) : SaveOutcome :=
  if page_path = "" then .missingPath
  else if code = "" then .missingCode
  else if !startsWithL "static".data (save_page_resolved page_path).data then .unauthorized
  else .write (save_page_resolved page_path) code

/-- A resolved relative path lies inside the content root `static` iff it
is the root itself or a proper descendant; anything else (`../...`,
sibling directories such as `static_evil`, absolute paths) escapes the
root. -/
def insideRoot (p : String) : Bool :=
  p == "static" || startsWithL "static/".data p.data

/-! ## Side conditions and concrete test environments -/

/-- A context argument that `refine_query` can process without raising:
either absent/empty (falsy, skipped) or containing at least one word. -/
def ctxOkB : Option String → Bool
  | none => true
  | some s => s == "" || !(pySplitWs (pyLowerS s)).isEmpty

/-- A Pexels attempt that contributes no candidate: the request raised or
the result page was empty. -/
def pexelsEmptyAt (env : Env) (q : String) (pg : Int) : Prop :=
  env.pexels q pg = .error () ∨ env.pexels q pg = .ok []

/-- A Pixabay attempt that contributes no candidate. -/
def pixabayEmptyAt (env : Env) (q : String) (pg : Int) : Prop :=
  env.pixabay q pg = .error () ∨ env.pixabay q pg = .ok []

/-- The first candidate photo delivered across `fuel` consecutive Pexels
pages starting at `pg` — the photo remembered as `fallback_photo`. -/
def firstSeenPexels (env : Env) (q : String) : Nat → Int → Option PexelsPhoto
  | 0, _ => none
  | fuel + 1, pg =>
    match env.pexels q pg with
    | .ok (p :: _) => some p
    | .ok [] => firstSeenPexels env q fuel (pg + 1)
    | .error _ => firstSeenPexels env q fuel (pg + 1)

/-- No photo of the Pexels page `pg` for query `q` passes the relevance
scorer against `kw` (raised attempts count as having no relevant photo). -/
def noRelevantAt (env : Env) (q : String) (kw : List String) (pg : Int) : Bool :=
  match env.pexels q pg with
  | .error _ => true
  | .ok l => l.all (fun ph => !check_relevance (pexelsTags ph) kw)

/-- An irrelevant photo (tags `random dog`) used as first-seen fallback in
the concrete scenarios. -/
def photoX : PexelsPhoto :=
  { alt := "random dog", description := "", medium := "https://img/x.jpg",
    photographer := "Ann", photographerUrl := "https://pexels.com/ann" }

/-- A photo relevant to the alternative query `fresh food`. -/
def photoY : PexelsPhoto :=
  { alt := "fresh food market", description := "", medium := "https://img/y.jpg",
    photographer := "Bob", photographerUrl := "https://pexels.com/bob" }

/-- A photo relevant to the refined query `fresh apple`. -/
def photoW : PexelsPhoto :=
  { alt := "fresh apple basket", description := "", medium := "https://img/w.jpg",
    photographer := "Cam", photographerUrl := "https://pexels.com/cam" }

/-- Environment for the alternative-query scenario: the initial refined
query only ever finds the irrelevant `photoX`, while the alternative
query `fresh food` would find the relevant `photoY`. -/
def envC3 : Env where
  pexelsKey := true
  pixabayKey := true
  pexels := fun q _ =>
    if q == "fresh food" then .ok [photoY]
    else if q == "fresh apple fruit organic banana" then .ok [photoX]
    else .ok []
  pixabay := fun _ _ => .ok []

/-- Environment with the Pexels API key unset. -/
def envNoKey : Env where
  pexelsKey := false
  pixabayKey := true
  pexels := fun _ _ => .ok []
  pixabay := fun _ _ => .ok []

/-- Environment in which both providers return an empty page for every
request. -/
def envAllEmpty : Env where
  pexelsKey := true
  pixabayKey := true
  pexels := fun _ _ => .ok []
  pixabay := fun _ _ => .ok []

/-- Environment in which Pexels always returns the relevant `photoW`. -/
def envC2W : Env where
  pexelsKey := true
  pixabayKey := true
  pexels := fun _ _ => .ok [photoW]
  pixabay := fun _ _ => .ok []

/-! ## Lemmas about the string primitives -/

theorem upperChars_facts :
    ∀ p ∈ upperChars, pyIsSpace p.1 = false ∧ pyIsSpace p.2 = false ∧
      upperChars.find? (fun q => q.1 == p.2) = none := by decide

theorem pyLowerC_idem (c : Char) : pyLowerC (pyLowerC c) = pyLowerC c := by
  cases hf : upperChars.find? (fun p => p.1 == c) with
  | none => simp [pyLowerC, hf]
  | some p =>
    have hp := List.mem_of_find?_eq_some hf
    have h := (upperChars_facts p hp).2.2
    simp [pyLowerC, hf, h]

theorem pyIsSpace_pyLowerC (c : Char) : pyIsSpace (pyLowerC c) = pyIsSpace c := by
  cases hf : upperChars.find? (fun p => p.1 == c) with
  | none => simp [pyLowerC, hf]
  | some p =>
    have hp := List.mem_of_find?_eq_some hf
    have h1 := (upperChars_facts p hp).1
    have h2 := (upperChars_facts p hp).2.1
    have hc : p.1 = c := by simpa using List.find?_some hf
    subst hc
    rw [show pyLowerC p.1 = p.2 by simp [pyLowerC, hf], h1, h2]

theorem pyLowerL_idem (l : List Char) : pyLowerL (pyLowerL l) = pyLowerL l := by
  unfold pyLowerL
  rw [List.map_map]
  have h : pyLowerC ∘ pyLowerC = pyLowerC := funext fun c => pyLowerC_idem c
  rw [h]

theorem pyLowerS_idem (s : String) : pyLowerS (pyLowerS s) = pyLowerS s := by
  show String.mk (pyLowerL (pyLowerL s.data)) = String.mk (pyLowerL s.data)
  exact congrArg String.mk (pyLowerL_idem s.data)

theorem wordsAux_sound :
    ∀ (s cur : List Char), (∀ c ∈ cur, pyIsSpace c = false) →
      ∀ w ∈ wordsAux cur s, w ≠ [] ∧ ∀ c ∈ w, pyIsSpace c = false := by
  intro s
  induction s with
  | nil =>
    intro cur hcur w hw
    by_cases h : cur.isEmpty <;> simp [wordsAux, h] at hw
    subst hw
    refine ⟨by simpa [List.isEmpty_iff] using h, ?_⟩
    intro c hc
    exact hcur c (List.mem_reverse.mp hc)
  | cons c cs ih =>
    intro cur hcur w hw
    by_cases hs : pyIsSpace c
    · by_cases h : cur.isEmpty
      · simp [wordsAux, hs, h] at hw
        exact ih [] (by simp) w hw
      · simp [wordsAux, hs, h] at hw
        rcases hw with hw | hw
        · subst hw
          refine ⟨by simpa [List.isEmpty_iff] using h, ?_⟩
          intro d hd
          exact hcur d (List.mem_reverse.mp hd)
        · exact ih [] (by simp) w hw
    · simp [wordsAux, hs] at hw
      refine ih (c :: cur) ?_ w hw
      intro d hd
      rcases List.mem_cons.mp hd with hd | hd
      · subst hd; simpa using hs
      · exact hcur d hd

theorem wordsAux_run :
    ∀ (w : List Char), (∀ c ∈ w, pyIsSpace c = false) →
      ∀ cur s, wordsAux cur (w ++ s) = wordsAux (w.reverse ++ cur) s := by
  intro w
  induction w with
  | nil => intro _ cur s; simp
  | cons c w' ih =>
    intro h cur s
    have hc : pyIsSpace c = false := h c (by simp)
    show wordsAux cur (c :: (w' ++ s)) = _
    rw [show wordsAux cur (c :: (w' ++ s)) = wordsAux (c :: cur) (w' ++ s) by
      simp [wordsAux, hc]]
    rw [ih (fun d hd => h d (by simp [hd])) (c :: cur) s]
    simp

theorem wordsAux_join :
    ∀ (ws : List (List Char)),
      (∀ w ∈ ws, w ≠ [] ∧ ∀ c ∈ w, pyIsSpace c = false) →
      wordsAux [] (joinWords ws) = ws := by
  intro ws
  induction ws with
  | nil => intro _; simp [joinWords, wordsAux]
  | cons w ws' ih =>
    intro h
    have hw := h w (by simp)
    cases ws' with
    | nil =>
      show wordsAux [] (joinWords [w]) = [w]
      rw [show joinWords [w] = w from rfl]
      rw [show (w : List Char) = w ++ [] by simp, wordsAux_run w hw.2 [] []]
      have : ¬ (w.reverse ++ [] : List Char).isEmpty := by
        simp [List.isEmpty_iff, hw.1]
      simp [wordsAux, this, hw.1]
    | cons w2 rest =>
      show wordsAux [] (joinWords (w :: w2 :: rest)) = w :: w2 :: rest
      rw [show joinWords (w :: w2 :: rest) = w ++ ' ' :: joinWords (w2 :: rest) from rfl]
      rw [wordsAux_run w hw.2 [] (' ' :: joinWords (w2 :: rest))]
      have hsp : pyIsSpace ' ' = true := by decide
      have hne : ¬ (w.reverse ++ [] : List Char).isEmpty := by
        simp [List.isEmpty_iff, hw.1]
      rw [show wordsAux (w.reverse ++ []) (' ' :: joinWords (w2 :: rest)) =
          (w.reverse ++ []).reverse :: wordsAux [] (joinWords (w2 :: rest)) by
        simp [wordsAux, hsp, hne, hw.1]]
      rw [ih (fun x hx => h x (by simp [hx]))]
      simp

theorem pyDedupAux_subset :
    ∀ (l seen : List String) (w : String), w ∈ pyDedupAux seen l → w ∈ l := by
  intro l
  induction l with
  | nil => intro seen w hw; simp [pyDedupAux] at hw
  | cons x xs ih =>
    intro seen w hw
    by_cases hx : x ∈ seen
    · simp [pyDedupAux, hx] at hw
      exact List.mem_cons_of_mem _ (ih seen w hw)
    · simp [pyDedupAux, hx] at hw
      rcases hw with hw | hw
      · simp [hw]
      · exact List.mem_cons_of_mem _ (ih (x :: seen) w hw)

theorem pyDedupAux_nodup :
    ∀ (l seen : List String),
      (pyDedupAux seen l).Nodup ∧ ∀ w ∈ pyDedupAux seen l, w ∉ seen := by
  intro l
  induction l with
  | nil => intro seen; simp [pyDedupAux]
  | cons x xs ih =>
    intro seen
    by_cases hx : x ∈ seen
    · simp only [pyDedupAux, if_pos hx]
      exact ih seen
    · simp only [pyDedupAux, if_neg hx]
      have h1 := (ih (x :: seen)).1
      have h2 := (ih (x :: seen)).2
      refine ⟨List.nodup_cons.mpr ⟨fun hmem => ?_, h1⟩, ?_⟩
      · exact (h2 x hmem) (by simp)
      · intro w hw
        rcases List.mem_cons.mp hw with hw | hw
        · subst hw; exact hx
        · intro hws
          exact (h2 w hw) (by simp [hws])

theorem pyDedupAux_of_nodup :
    ∀ (l seen : List String), l.Nodup → (∀ x ∈ l, x ∉ seen) →
      pyDedupAux seen l = l := by
  intro l
  induction l with
  | nil => intro seen _ _; rfl
  | cons x xs ih =>
    intro seen hnd hni
    have hx : x ∉ seen := hni x (by simp)
    simp only [pyDedupAux, if_neg hx]
    congr 1
    refine ih (x :: seen) (List.nodup_cons.mp hnd).2 ?_
    intro y hy
    intro hmem
    rcases List.mem_cons.mp hmem with h | h
    · subst h; exact (List.nodup_cons.mp hnd).1 hy
    · exact hni y (by simp [hy]) h

theorem pyDedup_nodup (l : List String) : (pyDedup l).Nodup := (pyDedupAux_nodup l []).1

theorem pyDedup_subset (l : List String) (w : String) (h : w ∈ pyDedup l) : w ∈ l :=
  pyDedupAux_subset l [] w h

theorem pyDedup_of_nodup (l : List String) (h : l.Nodup) : pyDedup l = l :=
  pyDedupAux_of_nodup l [] h (by simp)

theorem map_id_of_mem {α : Type} (f : α → α) :
    ∀ (l : List α), (∀ a ∈ l, f a = a) → l.map f = l := by
  intro l
  induction l with
  | nil => intro _; rfl
  | cons x xs ih =>
    intro h
    simp only [List.map_cons]
    rw [h x (by simp), ih (fun a ha => h a (by simp [ha]))]

theorem filter_id_of_mem {α : Type} (p : α → Bool) :
    ∀ (l : List α), (∀ a ∈ l, p a = true) → l.filter p = l := by
  intro l
  induction l with
  | nil => intro _; rfl
  | cons x xs ih =>
    intro h
    rw [List.filter_cons_of_pos (h x (by simp)), ih (fun a ha => h a (by simp [ha]))]

/-! ## Lemmas about refine_query -/

theorem ctxWords_good {c : Option String} {l : List String}
    (h : ctxWords c = some l) : ∀ w ∈ l, ∃ e ∈ context_keywords, w ∈ e.2 := by
  unfold ctxWords at h
  split at h
  · split at h
    · exact absurd h (by simp)
    · rename_i k rest heq
      simp only [Option.some_inj] at h
      subst h
      intro w hw
      cases hfind : context_keywords.find? (fun e => e.1 == k) with
      | none => rw [hfind] at hw; simp at hw
      | some e =>
        rw [hfind] at hw
        simp at hw
        exact ⟨e, List.mem_of_find?_eq_some hfind, hw⟩
  · simp only [Option.some_inj] at h
    subst h
    intro w hw
    exact absurd hw (by simp)

theorem table_words_good :
    ∀ e ∈ context_keywords, ∀ w ∈ e.2, w.data ≠ [] ∧
      (∀ c ∈ w.data, pyIsSpace c = false) ∧ pyLowerS w = w ∧
      stop_words.contains w = false := by decide

theorem ctxOkB_some {c : Option String} (h : ctxOkB c = true) :
    ∃ l, ctxWords c = some l := by
  cases c with
  | none => exact ⟨[], rfl⟩
  | some s =>
    unfold ctxOkB at h
    unfold ctxWords
    by_cases he : s == ""
    · have ht : pyTruthy (some s) = false := by simp [pyTruthy, he]
      rw [if_neg (by simp [ht])]
      exact ⟨[], rfl⟩
    · have hne : ¬ (pySplitWs (pyLowerS s)).isEmpty := by
        rcases Bool.or_eq_true_iff.mp h with h | h
        · exact absurd h he
        · simp at h; simp [List.isEmpty_iff, h]
      by_cases ht : pyTruthy (some s) = true
      · rw [if_pos ht]
        cases hs : pySplitWs (pyLowerS ((some s).getD "")) with
        | nil => exact absurd hs (by simpa [List.isEmpty_iff] using hne)
        | cons k rest => exact ⟨_, rfl⟩
      · rw [if_neg ht]
        exact ⟨[], rfl⟩

theorem refineWords_tokens {q : String} {p f : Option String} {ws : List String}
    (h : refineWords q p f = some ws) :
    ws.length ≤ 5 ∧ ws.Nodup ∧
      ∀ w ∈ ws, (w ∈ (pySplitWs q).map pyLowerS ∧ stop_words.contains w = false) ∨
        ∃ e ∈ context_keywords, w ∈ e.2 := by
  unfold refineWords at h
  cases hp : ctxWords p with
  | none => rw [hp] at h; exact absurd h (by simp)
  | some ws1 =>
    cases hf : ctxWords f with
    | none => rw [hp, hf] at h; exact absurd h (by simp)
    | some ws2 =>
      rw [hp, hf] at h
      simp only [Option.some_inj] at h
      subst h
      refine ⟨?_, ?_, ?_⟩
      · exact List.length_take_le 5 _
      · exact List.Nodup.sublist (List.take_sublist _ _) (pyDedup_nodup _)
      · intro w hw
        have hw2 := pyDedup_subset _ w (List.take_subset _ _ hw)
        rcases List.mem_append.mp hw2 with hw3 | hw3
        · rcases List.mem_append.mp hw3 with hw4 | hw4
          · rcases List.mem_filter.mp hw4 with ⟨hmem, hstop⟩
            exact Or.inl ⟨hmem, by simpa using hstop⟩
          · exact Or.inr (ctxWords_good hp w hw4)
        · exact Or.inr (ctxWords_good hf w hw3)

theorem pySplitWs_wf (s : String) :
    ∀ w ∈ pySplitWs s, w.data ≠ [] ∧ ∀ c ∈ w.data, pyIsSpace c = false := by
  intro w hw
  rcases List.mem_map.mp hw with ⟨l, hl, hwl⟩
  have := wordsAux_sound s.data [] (by simp) l hl
  subst hwl
  exact this

theorem refineWords_wf {q : String} {p f : Option String} {ws : List String}
    (h : refineWords q p f = some ws) :
    ∀ w ∈ ws, w.data ≠ [] ∧ (∀ c ∈ w.data, pyIsSpace c = false) ∧
      pyLowerS w = w ∧ stop_words.contains w = false := by
  intro w hw
  rcases (refineWords_tokens h).2.2 w hw with ⟨hmem, hstop⟩ | ⟨e, he, hwe⟩
  · rcases List.mem_map.mp hmem with ⟨v, hv, hvw⟩
    have hv2 := pySplitWs_wf q v hv
    subst hvw
    refine ⟨?_, ?_, pyLowerS_idem v, hstop⟩
    · show (pyLowerL v.data) ≠ []
      simpa [pyLowerL] using hv2.1
    · intro c hc
      rcases List.mem_map.mp hc with ⟨d, hd, hdc⟩
      subst hdc
      rw [pyIsSpace_pyLowerC]
      exact hv2.2 d hd
  · exact table_words_good e he w hwe

theorem refine_query_fix {q : String} {p f : Option String} {r : String}
    (h : refine_query q p f = some r) : refine_query r none none = some r := by
  unfold refine_query at h
  cases hw : refineWords q p f with
  | none => rw [hw] at h; exact absurd h (by simp)
  | some ws =>
    rw [hw] at h
    simp only [Option.some_inj] at h
    subst h
    have wf := refineWords_wf hw
    have tk := refineWords_tokens hw
    have key1 : pySplitWs (joinWordsS ws) = ws := by
      show (wordsAux [] (joinWords (ws.map String.data))).map (fun l => (⟨l⟩ : String)) = ws
      rw [wordsAux_join (ws.map String.data) ?_]
      · rw [List.map_map]
        exact map_id_of_mem _ ws (fun w _ => rfl)
      · intro l hl
        rcases List.mem_map.mp hl with ⟨w, hwmem, hwl⟩
        subst hwl
        exact ⟨(wf w hwmem).1, (wf w hwmem).2.1⟩
    have key2 : ws.map pyLowerS = ws :=
      map_id_of_mem _ ws (fun w hwm => (wf w hwm).2.2.1)
    have key3 : ws.filter (fun w => !stop_words.contains w) = ws := by
      refine filter_id_of_mem _ ws ?_
      intro w hwm
      simpa using (wf w hwm).2.2.2
    have key4 : pyDedup ws = ws := pyDedup_of_nodup ws tk.2.1
    have key5 : ws.take 5 = ws := List.take_of_length_le tk.1
    unfold refine_query refineWords
    rw [show ctxWords none = some [] from rfl]
    rw [key1, key2, key3]
    simp only [List.append_nil]
    rw [key4, key5]

/-- C9: `check_relevance` is antitone in `min_matches`: whenever the
scorer accepts at the larger threshold `m2`, it also accepts at any
smaller threshold `m1` — raising `min_matches` never turns a false
result true. -/
theorem check_relevance_antitone (tags keywords : List String) (m1 m2 : Int)
    (hle : m1 ≤ m2) (h : check_relevance tags keywords m2 = true) :
    check_relevance tags keywords m1 = true := by
  unfold check_relevance at h ⊢
  simp only [decide_eq_true_eq] at h ⊢
  exact le_trans hle h

theorem check_relevance_antitone_witness :
    (1 : Int) ≤ 2 ∧
    check_relevance ["apple", "fresh"] ["fresh", "apple"] 2 = true ∧
    check_relevance ["apple", "fresh"] ["fresh", "apple"] 1 = true :=
  ⟨by decide, by decide,
    check_relevance_antitone ["apple", "fresh"] ["fresh", "apple"] 1 2 (by decide) (by decide)⟩

/-- C10: `refine_query` without page/folder context is idempotent — the
refinement of an already refined query is that query itself, which is
what keeps `fetch_image` well-behaved when the provider clients refine
the already refined query a second time. -/
theorem refine_query_idempotent_no_context (q r : String)
    (h : refine_query q none none = some r) :
    refine_query r none none = some r :=
  refine_query_fix h

theorem refine_query_idempotent_no_context_witness :
    refine_query "Fresh  Apple basket" none none = some "fresh apple basket" ∧
    refine_query "fresh apple basket" none none = some "fresh apple basket" :=
  ⟨by decide,
    refine_query_idempotent_no_context "Fresh  Apple basket" "fresh apple basket" (by decide)⟩

/-- C8 (amended): for every query and page/folder contexts that are
absent, empty or contain at least one word, `refine_query` returns a
space-joined list of at most 5 pairwise-distinct tokens, each a
lowercased word of the query or a word of the context-keyword table.
(As stated over *all* contexts the claim fails: a truthy whitespace-only
context makes `refine_query` raise `IndexError`, see the
counterexample.) -/
theorem refine_query_bounded_tokens (q : String) (p f : Option String)
    (hp : ctxOkB p = true) (hf : ctxOkB f = true) :
    ∃ ws : List String, refine_query q p f = some (joinWordsS ws) ∧
      ws.length ≤ 5 ∧ ws.Nodup ∧
      ∀ w ∈ ws, w ∈ (pySplitWs q).map pyLowerS ∨ ∃ e ∈ context_keywords, w ∈ e.2 := by
  rcases ctxOkB_some hp with ⟨ws1, hp1⟩
  rcases ctxOkB_some hf with ⟨ws2, hf1⟩
  have hr : refineWords q p f =
      some ((pyDedup ((((pySplitWs q).map pyLowerS).filter
        (fun w => !stop_words.contains w)) ++ ws1 ++ ws2)).take 5) := by
    unfold refineWords
    rw [hp1, hf1]
  refine ⟨(pyDedup ((((pySplitWs q).map pyLowerS).filter
      (fun w => !stop_words.contains w)) ++ ws1 ++ ws2)).take 5, ?_, ?_, ?_, ?_⟩
  · unfold refine_query
    rw [hr]
  · exact (refineWords_tokens hr).1
  · exact (refineWords_tokens hr).2.1
  · intro w hw
    rcases (refineWords_tokens hr).2.2 w hw with ⟨hmem, _⟩ | hmem
    · exact Or.inl hmem
    · exact Or.inr hmem

/-- C8 counterexample: with the truthy, whitespace-only page context
`" "`, the source evaluates `page_name.lower().split()[0]` on an empty
list and raises `IndexError` instead of returning a refined string. -/
theorem refine_query_whitespace_context_cex :
    refine_query "apple" (some " ") none = none := by decide

theorem refine_query_bounded_tokens_witness :
    ctxOkB (some "fruits") = true ∧ ctxOkB none = true ∧
    ∃ ws : List String,
      refine_query "A fresh Apple" (some "fruits") none = some (joinWordsS ws) ∧
      ws.length ≤ 5 ∧ ws.Nodup ∧
      ∀ w ∈ ws, w ∈ (pySplitWs "A fresh Apple").map pyLowerS ∨
        ∃ e ∈ context_keywords, w ∈ e.2 :=
  ⟨by decide, by decide,
    refine_query_bounded_tokens "A fresh Apple" (some "fruits") none (by decide) (by decide)⟩

/-! ## save_page path confinement (claim C1) -/

/-- C1 (code bug): the path confinement of `save_page` is the string
prefix check `normpath(join('static', page_path)).startswith('static')`.
The documented example `../../etc/passwd` resolves to `../etc/passwd`
and is indeed rejected, but the check does not confine to the content
root: `../static_evil/x.html` resolves to `static_evil/x.html` — a
sibling of the root whose name merely begins with `static` — which
passes the prefix check, so the file is written outside the content
root, contradicting the claimed path confinement. -/
theorem save_page_path_check_bypass :
    save_page "../../etc/passwd" "content" = SaveOutcome.unauthorized ∧
    save_page "../static_evil/x.html" "content" =
      SaveOutcome.write "static_evil/x.html" "content" ∧
    insideRoot "static_evil/x.html" = false := by
  refine ⟨?_, ?_, ?_⟩ <;> decide

/-! ## The Groq retry decorator (claim C5) -/

/-- C5 (code bug): the `tenacity` retry decorator (3 attempts,
exponential backoff, retry on `HTTPError`) is attached to
`generate_alternative_queries` — a pure function that performs no HTTP
call and can never raise an `HTTPError`, making the decorator vacuous —
while `call_groq_api`, whose own docstring promises "error handling and
retries", has no decorator: it performs exactly one HTTP attempt, and a
429 rate-limit response propagates immediately instead of being retried.
Had the retry policy wrapped the LLM call as the claim describes, a
transport answering 429 then 200 would succeed. -/
theorem groq_retry_decorator_misplaced :
    call_groq_api (A := String) (.ok (429, "rate-limited")) =
      .error (.httpError 429) ∧
    tenacityRetry isHTTPErrorExc 3
      (fun i => call_groq_api (A := String)
        (if i == 0 then .ok (429, "rate-limited") else .ok (200, "payload"))) =
      .ok "payload" ∧
    generate_alternative_queries_retried "query" (some "fruits") none =
      generate_alternative_queries "query" (some "fruits") none :=
  ⟨rfl, rfl, rfl⟩

/-! ## clean_code lemmas and claims C6, C7 -/

theorem startsWithL_append_left :
    ∀ (p1 p2 s : List Char), startsWithL (p1 ++ p2) s = true → startsWithL p1 s = true := by
  intro p1
  induction p1 with
  | nil => intro _ _ _; rfl
  | cons a p1' ih =>
    intro p2 s h
    cases s with
    | nil => simp [startsWithL] at h
    | cons c cs =>
      simp only [List.cons_append, startsWithL, Bool.and_eq_true] at h ⊢
      exact ⟨h.1, ih p2 cs h.2⟩

theorem containsSub_cons_false {pat : List Char} {c : Char} {cs : List Char}
    (h : containsSub pat (c :: cs) = false) :
    startsWithL pat (c :: cs) = false ∧ containsSub pat cs = false := by
  unfold containsSub at h ⊢
  unfold findSub at h
  by_cases hs : startsWithL pat (c :: cs) = true
  · rw [if_pos hs] at h
    simp at h
  · rw [if_neg hs] at h
    refine ⟨by simpa using hs, ?_⟩
    simpa using h

theorem stripFencesGo_id (fuel : Nat) :
    ∀ s : List Char, containsSub "```".data s = false → stripFencesGo fuel s = s := by
  induction fuel with
  | zero => intro s _; cases s <;> rfl
  | succ n ih =>
    intro s h
    cases s with
    | nil => rfl
    | cons c cs =>
      have h2 := containsSub_cons_false h
      have h8 : startsWithL "```html\n".data (c :: cs) = false := by
        cases hsw : startsWithL "```html\n".data (c :: cs) with
        | false => rfl
        | true =>
          have := startsWithL_append_left "```".data "html\n".data (c :: cs)
            (by rw [show ("```".data ++ "html\n".data) = "```html\n".data from rfl]; exact hsw)
          rw [this] at h2
          exact absurd h2.1 (by simp)
      show stripFencesGo (n + 1) (c :: cs) = c :: cs
      unfold stripFencesGo
      rw [h8, h2.1]
      simp only [Bool.false_eq_true, if_false]
      rw [ih cs h2.2]

theorem stripFences_id (s : List Char) (h : containsSub "```".data s = false) :
    stripFences s = s := stripFencesGo_id _ s h

theorem extractFenceGo_none (fuel : Nat) :
    ∀ s : List Char, containsSub "```".data s = false → extractFenceGo fuel s = none := by
  induction fuel with
  | zero => intro s _; cases s <;> rfl
  | succ n ih =>
    intro s h
    cases s with
    | nil => rfl
    | cons c cs =>
      have h2 := containsSub_cons_false h
      have h8 : startsWithL "```html\n".data (c :: cs) = false := by
        cases hsw : startsWithL "```html\n".data (c :: cs) with
        | false => rfl
        | true =>
          have := startsWithL_append_left "```".data "html\n".data (c :: cs)
            (by rw [show ("```".data ++ "html\n".data) = "```html\n".data from rfl]; exact hsw)
          rw [this] at h2
          exact absurd h2.1 (by simp)
      show extractFenceGo (n + 1) (c :: cs) = none
      unfold extractFenceGo
      rw [h8]
      simp only [Bool.false_eq_true, if_false]
      exact ih cs h2.2

theorem extractFence_none (s : List Char) (h : containsSub "```".data s = false) :
    extractFence s = none := extractFenceGo_none _ s h

theorem stripCommentsGo_id (fuel : Nat) :
    ∀ s : List Char, containsSub "<!--".data s = false → stripCommentsGo fuel s = s := by
  induction fuel with
  | zero => intro s _; cases s <;> rfl
  | succ n ih =>
    intro s h
    cases s with
    | nil => rfl
    | cons c cs =>
      have h2 := containsSub_cons_false h
      show stripCommentsGo (n + 1) (c :: cs) = c :: cs
      unfold stripCommentsGo
      rw [h2.1]
      simp only [Bool.false_eq_true, if_false]
      rw [ih cs h2.2]

theorem stripComments_id (s : List Char) (h : containsSub "<!--".data s = false) :
    stripComments s = s := stripCommentsGo_id _ s h

theorem dropWhile_head_not {α : Type} (p : α → Bool) :
    ∀ (l : List α) (a : α) (t : List α), l.dropWhile p = a :: t → p a = false := by
  intro l
  induction l with
  | nil => intro a t h; simp [List.dropWhile] at h
  | cons x xs ih =>
    intro a t h
    by_cases hx : p x
    · rw [List.dropWhile_cons, if_pos hx] at h
      exact ih a t h
    · rw [List.dropWhile_cons, if_neg hx] at h
      cases h
      simpa using hx

theorem dropWhile_eq_self {α : Type} (p : α → Bool) (l : List α)
    (h : ∀ a t, l = a :: t → p a = false) : l.dropWhile p = l := by
  cases l with
  | nil => rfl
  | cons x xs => rw [List.dropWhile_cons, if_neg (by simp [h x xs rfl])]

theorem dropWhile_idem {α : Type} (p : α → Bool) (l : List α) :
    (l.dropWhile p).dropWhile p = l.dropWhile p :=
  dropWhile_eq_self p _ (fun a t h => dropWhile_head_not p l a t h)

theorem dropWhile_makes_suffix {α : Type} (p : α → Bool) :
    ∀ l : List α, ∃ r, r ++ l.dropWhile p = l := by
  intro l
  induction l with
  | nil => exact ⟨[], rfl⟩
  | cons x xs ih =>
    by_cases hx : p x
    · rcases ih with ⟨r, hr⟩
      exact ⟨x :: r, by rw [List.dropWhile_cons, if_pos hx]; simpa using hr⟩
    · exact ⟨[], by rw [List.dropWhile_cons, if_neg hx]; rfl⟩

theorem pyStripL_idem (l : List Char) : pyStripL (pyStripL l) = pyStripL l := by
  unfold pyStripL
  set u := l.dropWhile pyIsSpace with hu
  set z := u.reverse.dropWhile pyIsSpace with hz
  have hm : z.reverse.dropWhile pyIsSpace = z.reverse := by
    refine dropWhile_eq_self _ _ ?_
    intro a t hat
    rcases dropWhile_makes_suffix pyIsSpace u.reverse with ⟨r, hr⟩
    rw [← hz] at hr
    have hu2 : z.reverse ++ r.reverse = u := by
      have := congrArg List.reverse hr
      simpa using this
    have hu3 : l.dropWhile pyIsSpace = a :: (t ++ r.reverse) := by
      rw [← hu, ← hu2, hat, List.cons_append]
    exact dropWhile_head_not pyIsSpace l a (t ++ r.reverse) hu3
  have hzz : z.dropWhile pyIsSpace = z := by
    rw [hz]
    exact dropWhile_idem pyIsSpace u.reverse
  rw [hm, List.reverse_reverse, hzz]

set_option maxRecDepth 100000 in
set_option maxHeartbeats 2000000 in
/-- C6 (amended): `clean_code("no html at all", "Home")` produces a
document containing `<html`, `<head>`, `<body>` and `</html>`, but no
`<title>` element at all: the title step of `clean_code` only rewrites
an existing `<title>...</title>` element and never inserts one, so the
claimed `<title>Home - My Website</title>` is absent. -/
theorem clean_code_wraps_bare_text :
    containsSub "<html".data (clean_code "no html at all" "Home").data = true ∧
    containsSub "<head>".data (clean_code "no html at all" "Home").data = true ∧
    containsSub "<body>".data (clean_code "no html at all" "Home").data = true ∧
    containsSub "</html>".data (clean_code "no html at all" "Home").data = true ∧
    containsSub "<title>".data (clean_code "no html at all" "Home").data = false := by
  refine ⟨?_, ?_, ?_, ?_, ?_⟩ <;> decide

set_option maxRecDepth 100000 in
set_option maxHeartbeats 2000000 in
/-- C6 counterexample: the output for `("no html at all", "Home")`
contains no `<title>` substring whatsoever, hence no `<title>` element
whose content is `"Home - My Website"`. -/
theorem clean_code_no_title_cex :
    containsSub "<title>".data (clean_code "no html at all" "Home").data = false := by
  decide

set_option maxRecDepth 100000 in
set_option maxHeartbeats 8000000 in
/-- C7 counterexample: `clean_code` is not idempotent.  Removing the
comment `<!--x-->` from the input `<!<!--x-->-- -->` splices the
remaining text into a fresh comment `<!-- -->`, which survives into the
first output and is removed by a second pass, so the second pass yields
a different document. -/
theorem clean_code_not_idempotent_cex :
    clean_code (clean_code "<!<!--x-->-- -->" "Home") "Home" ≠
      clean_code "<!<!--x-->-- -->" "Home" := by
  decide

set_option maxHeartbeats 1000000 in
/-- C7 (amended): `clean_code` is idempotent on every input whose first
output is *stable*: it contains no fence marker and no comment opener,
the meta-paragraph and title substitutions leave it unchanged, it starts
with the doctype, contains `<html`, `<head>` and `<body>`, ends with
`</html>` and passes the final validation.  (The counterexample shows
the first pass does not always establish stability: a spliced comment
can survive into the output.) -/
theorem clean_code_idempotent_on_stable_output (raw page : String)
    (h1 : containsSub "```".data (clean_code raw page).data = false)
    (h2 : containsSub "<!--".data (clean_code raw page).data = false)
    (h3 : stripMetaP (clean_code raw page).data = (clean_code raw page).data)
    (h4 : startsWithL "<!DOCTYPE html>".data (clean_code raw page).data = true)
    (h5 : containsSub "<html".data (clean_code raw page).data = true)
    (h6 : containsSub "<head>".data (clean_code raw page).data = true)
    (h7 : containsSub "<body>".data (clean_code raw page).data = true)
    (h8 : forceTitle page (clean_code raw page).data = (clean_code raw page).data)
    (h9 : endsWithL "</html>".data (clean_code raw page).data = true)
    (h10 : validateHtml (clean_code raw page).data = true) :
    clean_code (clean_code raw page) page = clean_code raw page := by
  have hcc : clean_code raw page = ⟨clean_core page raw.data⟩ := by
    unfold clean_code
    rfl
  have hdata : (clean_code raw page).data = clean_core page raw.data := by
    rw [hcc]
  have hstrip : pyStripL (clean_code raw page).data = (clean_code raw page).data := by
    rw [hdata]
    unfold clean_core
    exact pyStripL_idem _
  clear hdata hcc
  set X := clean_code raw page with hX
  show clean_code X page = X
  unfold clean_code clean_core
  rw [show fenceStep X.data = X.data by
      unfold fenceStep; rw [extractFence_none X.data h1]]
  rw [stripFences_id X.data h1, stripComments_id X.data h2, h3]
  rw [show docStep X.data = X.data by
      unfold docStep; rw [hstrip, h4]; rfl]
  rw [show htmlStep X.data = X.data by
      unfold htmlStep; rw [h5]; rfl]
  rw [show headStep X.data = X.data by
      unfold headStep; rw [h6]; rfl]
  rw [show bodyStep X.data = X.data by
      unfold bodyStep; rw [h7]; rfl]
  rw [h8]
  rw [show closeStep X.data = X.data by
      unfold closeStep; rw [h9]; rfl]
  rw [show validateStep page X.data = X.data by
      unfold validateStep; rw [h10]; rfl]
  rw [hstrip]

set_option maxRecDepth 100000 in
set_option maxHeartbeats 8000000 in
theorem clean_code_idempotent_on_stable_output_witness :
    containsSub "```".data (clean_code "no html at all" "Home").data = false ∧
    containsSub "<!--".data (clean_code "no html at all" "Home").data = false ∧
    stripMetaP (clean_code "no html at all" "Home").data =
      (clean_code "no html at all" "Home").data ∧
    forceTitle "Home" (clean_code "no html at all" "Home").data =
      (clean_code "no html at all" "Home").data ∧
    clean_code (clean_code "no html at all" "Home") "Home" =
      clean_code "no html at all" "Home" :=
  ⟨by decide, by decide, by decide, by decide,
    clean_code_idempotent_on_stable_output "no html at all" "Home"
      (by decide) (by decide) (by decide) (by decide) (by decide) (by decide)
      (by decide) (by decide) (by decide) (by decide)⟩

/-! ## Lemmas about the provider attempt loops -/

theorem pexelsAttempts_ok_some (env : Env) (q : String) (kw : List String) :
    ∀ (fuel : Nat) (pg : Int) (fb : Option PexelsPhoto) (r : ImageResult),
      (∀ ph, fb = some ph → ∃ pg2 l, env.pexels q pg2 = .ok l ∧ ph ∈ l) →
      pexelsAttempts env q kw fuel pg fb = .ok (some r) →
      ∃ pg2 l ph, env.pexels q pg2 = .ok l ∧ ph ∈ l ∧ r = mkPexelsResult ph := by
  intro fuel
  induction fuel with
  | zero =>
    intro pg fb r hfb h
    cases fb with
    | none => exact absurd h (by simp [pexelsAttempts])
    | some ph =>
      have hr : mkPexelsResult ph = r := by
        simpa [pexelsAttempts] using h
      rcases hfb ph rfl with ⟨pg2, l, hl, hm⟩
      exact ⟨pg2, l, ph, hl, hm, hr.symm⟩
  | succ n ih =>
    intro pg fb r hfb h
    unfold pexelsAttempts at h
    split at h
    · exact ih (pg + 1) fb r hfb h
    · exact ih (pg + 1) fb r hfb h
    · rename_i p ps hres
      split at h
      · rename_i ph hfind
        have hmem : ph ∈ p :: ps := List.mem_of_find?_eq_some hfind
        have hr : mkPexelsResult ph = r := by simpa using h
        exact ⟨pg, p :: ps, ph, hres, hmem, hr.symm⟩
      · refine ih (pg + 1) (some (fb.getD p)) r ?_ h
        intro ph hph
        cases fb with
        | none =>
          simp at hph
          exact ⟨pg, p :: ps, by rw [hres], by simp [← hph]⟩
        | some f =>
          have hpf : ph = f := by simpa using hph.symm
          subst hpf
          exact hfb ph rfl

theorem pixabayAttempts_ok_some (env : Env) (q : String) (kw : List String) :
    ∀ (fuel : Nat) (pg : Int) (fb : Option PixabayHit) (r : ImageResult),
      (∀ ht, fb = some ht → ∃ pg2 l, env.pixabay q pg2 = .ok l ∧ ht ∈ l) →
      pixabayAttempts env q kw fuel pg fb = .ok (some r) →
      ∃ pg2 l ht, env.pixabay q pg2 = .ok l ∧ ht ∈ l ∧ r = mkPixabayResult ht := by
  intro fuel
  induction fuel with
  | zero =>
    intro pg fb r hfb h
    cases fb with
    | none => exact absurd h (by simp [pixabayAttempts])
    | some ht =>
      have hr : mkPixabayResult ht = r := by
        simpa [pixabayAttempts] using h
      rcases hfb ht rfl with ⟨pg2, l, hl, hm⟩
      exact ⟨pg2, l, ht, hl, hm, hr.symm⟩
  | succ n ih =>
    intro pg fb r hfb h
    unfold pixabayAttempts at h
    split at h
    · exact ih (pg + 1) fb r hfb h
    · exact ih (pg + 1) fb r hfb h
    · rename_i p ps hres
      split at h
      · rename_i ht hfind
        have hmem : ht ∈ p :: ps := List.mem_of_find?_eq_some hfind
        have hr : mkPixabayResult ht = r := by simpa using h
        exact ⟨pg, p :: ps, ht, hres, hmem, hr.symm⟩
      · refine ih (pg + 1) (some (fb.getD p)) r ?_ h
        intro ht hht
        cases fb with
        | none =>
          simp at hht
          exact ⟨pg, p :: ps, by rw [hres], by simp [← hht]⟩
        | some f =>
          have hpf : ht = f := by simpa using hht.symm
          subst hpf
          exact hfb ht rfl

theorem pexelsAttempts_ok (env : Env) (q : String) (kw : List String) :
    ∀ (fuel : Nat) (pg : Int) (fb : Option PexelsPhoto),
      ∃ o, pexelsAttempts env q kw fuel pg fb = .ok o := by
  intro fuel
  induction fuel with
  | zero => intro pg fb; exact ⟨fb.map mkPexelsResult, rfl⟩
  | succ n ih =>
    intro pg fb
    unfold pexelsAttempts
    split
    · exact ih (pg + 1) fb
    · exact ih (pg + 1) fb
    · rename_i p ps hres
      split
      · exact ⟨_, rfl⟩
      · exact ih (pg + 1) (some (fb.getD p))

theorem pixabayAttempts_ok (env : Env) (q : String) (kw : List String) :
    ∀ (fuel : Nat) (pg : Int) (fb : Option PixabayHit),
      ∃ o, pixabayAttempts env q kw fuel pg fb = .ok o := by
  intro fuel
  induction fuel with
  | zero => intro pg fb; exact ⟨fb.map mkPixabayResult, rfl⟩
  | succ n ih =>
    intro pg fb
    unfold pixabayAttempts
    split
    · exact ih (pg + 1) fb
    · exact ih (pg + 1) fb
    · rename_i p ps hres
      split
      · exact ⟨_, rfl⟩
      · exact ih (pg + 1) (some (fb.getD p))

theorem pexelsAttempts_some_fb (env : Env) (q : String) (kw : List String) :
    ∀ (fuel : Nat) (pg : Int) (f : PexelsPhoto),
      ∃ r, pexelsAttempts env q kw fuel pg (some f) = .ok (some r) := by
  intro fuel
  induction fuel with
  | zero => intro pg f; exact ⟨mkPexelsResult f, rfl⟩
  | succ n ih =>
    intro pg f
    unfold pexelsAttempts
    split
    · exact ih (pg + 1) f
    · exact ih (pg + 1) f
    · rename_i p ps hres
      split
      · exact ⟨_, rfl⟩
      · exact ih (pg + 1) ((some f).getD p)

theorem pixabayAttempts_some_fb (env : Env) (q : String) (kw : List String) :
    ∀ (fuel : Nat) (pg : Int) (f : PixabayHit),
      ∃ r, pixabayAttempts env q kw fuel pg (some f) = .ok (some r) := by
  intro fuel
  induction fuel with
  | zero => intro pg f; exact ⟨mkPixabayResult f, rfl⟩
  | succ n ih =>
    intro pg f
    unfold pixabayAttempts
    split
    · exact ih (pg + 1) f
    · exact ih (pg + 1) f
    · rename_i p ps hres
      split
      · exact ⟨_, rfl⟩
      · exact ih (pg + 1) ((some f).getD p)

theorem pexelsAttempts_none_iff (env : Env) (q : String) (kw : List String) :
    ∀ (fuel : Nat) (pg : Int),
      (pexelsAttempts env q kw fuel pg none = .ok none ↔
        ∀ i : Nat, i < fuel → pexelsEmptyAt env q (pg + i)) := by
  intro fuel
  induction fuel with
  | zero =>
    intro pg
    constructor
    · intro _ i hi; omega
    · intro _; rfl
  | succ n ih =>
    intro pg
    have hshift : ∀ i : Nat, (pg + 1) + (i : Int) = pg + ((i + 1 : Nat) : Int) := by
      intro i; push_cast; ring
    constructor
    · intro h
      unfold pexelsAttempts at h
      split at h
      · rename_i hres
        intro i hi
        cases i with
        | zero => exact Or.inl (by simpa using hres)
        | succ j =>
          have := (ih (pg + 1)).mp h j (by omega)
          rwa [hshift j] at this
      · rename_i hres
        intro i hi
        cases i with
        | zero => exact Or.inr (by simpa using hres)
        | succ j =>
          have := (ih (pg + 1)).mp h j (by omega)
          rwa [hshift j] at this
      · rename_i p ps hres
        split at h
        · exact absurd h (by simp)
        · rcases pexelsAttempts_some_fb env q kw n (pg + 1) ((none : Option PexelsPhoto).getD p)
            with ⟨r, hr⟩
          rw [hr] at h
          exact absurd h (by simp)
    · intro hall
      unfold pexelsAttempts
      split
      · exact (ih (pg + 1)).mpr (fun i hi => by
          rw [hshift i]; exact hall (i + 1) (by omega))
      · exact (ih (pg + 1)).mpr (fun i hi => by
          rw [hshift i]; exact hall (i + 1) (by omega))
      · rename_i p ps hres
        exfalso
        have h0 := hall 0 (by omega)
        rcases h0 with h0 | h0 <;> rw [show pg + ((0 : Nat) : Int) = pg by simp] at h0 <;>
          rw [hres] at h0 <;> simp at h0

theorem pixabayAttempts_none_iff (env : Env) (q : String) (kw : List String) :
    ∀ (fuel : Nat) (pg : Int),
      (pixabayAttempts env q kw fuel pg none = .ok none ↔
        ∀ i : Nat, i < fuel → pixabayEmptyAt env q (pg + i)) := by
  intro fuel
  induction fuel with
  | zero =>
    intro pg
    constructor
    · intro _ i hi; omega
    · intro _; rfl
  | succ n ih =>
    intro pg
    have hshift : ∀ i : Nat, (pg + 1) + (i : Int) = pg + ((i + 1 : Nat) : Int) := by
      intro i; push_cast; ring
    constructor
    · intro h
      unfold pixabayAttempts at h
      split at h
      · rename_i hres
        intro i hi
        cases i with
        | zero => exact Or.inl (by simpa using hres)
        | succ j =>
          have := (ih (pg + 1)).mp h j (by omega)
          rwa [hshift j] at this
      · rename_i hres
        intro i hi
        cases i with
        | zero => exact Or.inr (by simpa using hres)
        | succ j =>
          have := (ih (pg + 1)).mp h j (by omega)
          rwa [hshift j] at this
      · rename_i p ps hres
        split at h
        · exact absurd h (by simp)
        · rcases pixabayAttempts_some_fb env q kw n (pg + 1) ((none : Option PixabayHit).getD p)
            with ⟨r, hr⟩
          rw [hr] at h
          exact absurd h (by simp)
    · intro hall
      unfold pixabayAttempts
      split
      · exact (ih (pg + 1)).mpr (fun i hi => by
          rw [hshift i]; exact hall (i + 1) (by omega))
      · exact (ih (pg + 1)).mpr (fun i hi => by
          rw [hshift i]; exact hall (i + 1) (by omega))
      · rename_i p ps hres
        exfalso
        have h0 := hall 0 (by omega)
        rcases h0 with h0 | h0 <;> rw [show pg + ((0 : Nat) : Int) = pg by simp] at h0 <;>
          rw [hres] at h0 <;> simp at h0

theorem noRelevantAt_spec {env : Env} {q : String} {kw : List String} {pg : Int}
    (h : noRelevantAt env q kw pg = true) :
    ∀ l, env.pexels q pg = .ok l →
      ∀ ph ∈ l, check_relevance (pexelsTags ph) kw = false := by
  intro l hl ph hph
  unfold noRelevantAt at h
  rw [hl] at h
  simp only [List.all_eq_true] at h
  simpa using h ph hph

theorem firstSeenPexels_succ (env : Env) (q : String) (n : Nat) (pg : Int) :
    firstSeenPexels env q (n + 1) pg =
      match env.pexels q pg with
      | .ok (p :: _) => some p
      | .ok [] => firstSeenPexels env q n (pg + 1)
      | .error _ => firstSeenPexels env q n (pg + 1) := by
  cases h : env.pexels q pg with
  | ok l => cases l <;> simp [firstSeenPexels, h]
  | error e => simp [firstSeenPexels, h]

theorem pexelsAttempts_fallback (env : Env) (q : String) (kw : List String) :
    ∀ (fuel : Nat) (pg : Int) (fb : Option PexelsPhoto),
      (∀ i : Nat, i < fuel → ∀ l, env.pexels q (pg + i) = .ok l →
        ∀ ph ∈ l, check_relevance (pexelsTags ph) kw = false) →
      pexelsAttempts env q kw fuel pg fb =
        .ok ((match fb with
          | some f => some f
          | none => firstSeenPexels env q fuel pg).map mkPexelsResult) := by
  intro fuel
  induction fuel with
  | zero =>
    intro pg fb _
    cases fb <;> rfl
  | succ n ih =>
    intro pg fb hno
    have hshift : ∀ i : Nat, (pg + 1) + (i : Int) = pg + ((i + 1 : Nat) : Int) := by
      intro i; push_cast; ring
    have hno2 : ∀ i : Nat, i < n → ∀ l, env.pexels q ((pg + 1) + i) = .ok l →
        ∀ ph ∈ l, check_relevance (pexelsTags ph) kw = false := by
      intro i hi l hl
      rw [hshift i] at hl
      exact hno (i + 1) (by omega) l hl
    unfold pexelsAttempts
    split
    · rename_i e heq
      rw [ih (pg + 1) fb hno2]
      cases fb with
      | some f => rfl
      | none =>
        rw [show firstSeenPexels env q (n + 1) pg = firstSeenPexels env q n (pg + 1) from by
          rw [firstSeenPexels_succ, heq]]
    · rename_i heq
      rw [ih (pg + 1) fb hno2]
      cases fb with
      | some f => rfl
      | none =>
        rw [show firstSeenPexels env q (n + 1) pg = firstSeenPexels env q n (pg + 1) from by
          rw [firstSeenPexels_succ, heq]]
    · rename_i p ps heq
      split
      · rename_i ph hfind
        exfalso
        have hmem := List.mem_of_find?_eq_some hfind
        have hrel := List.find?_some hfind
        have h0 := hno 0 (by omega) (p :: ps)
          (by rw [show pg + ((0 : Nat) : Int) = pg by simp]; exact heq) ph hmem
        simp [h0] at hrel
      · rename_i hfind
        rw [ih (pg + 1) (some (fb.getD p)) hno2]
        cases fb with
        | some f => rfl
        | none =>
          rw [show firstSeenPexels env q (n + 1) pg = some p from by
            rw [firstSeenPexels_succ, heq]]
          rfl

/-! ## Lemmas about the provider entry points and the pipeline -/

theorem fetch_pexels_ok_some {env : Env} {q id : String} {m : Nat} {r : ImageResult}
    (h : fetch_image_from_pexels env q id m = .ok (some r)) :
    ∃ q2 pg l ph, env.pexels q2 pg = .ok l ∧ ph ∈ l ∧ r = mkPexelsResult ph := by
  unfold fetch_image_from_pexels at h
  split at h
  · exact absurd h (by simp)
  · split at h
    · exact absurd h (by simp)
    · rename_i refined href
      split at h
      · exact absurd h (by simp)
      · rename_i base hbase
        rcases pexelsAttempts_ok_some env refined (pySplitWs refined) m (base + 1) none r
          (by intro ph hph; exact absurd hph (by simp)) h with ⟨pg2, l, ph, h1, h2, h3⟩
        exact ⟨refined, pg2, l, ph, h1, h2, h3⟩

theorem fetch_pixabay_ok_some {env : Env} {q id : String} {m : Nat} {r : ImageResult}
    (h : fetch_image_from_pixabay env q id m = .ok (some r)) :
    ∃ q2 pg l ht, env.pixabay q2 pg = .ok l ∧ ht ∈ l ∧ r = mkPixabayResult ht := by
  unfold fetch_image_from_pixabay at h
  split at h
  · exact absurd h (by simp)
  · split at h
    · exact absurd h (by simp)
    · rename_i refined href
      split at h
      · exact absurd h (by simp)
      · rename_i base hbase
        rcases pixabayAttempts_ok_some env refined (pySplitWs refined) m (base + 1) none r
          (by intro ht hht; exact absurd hht (by simp)) h with ⟨pg2, l, ht, h1, h2, h3⟩
        exact ⟨refined, pg2, l, ht, h1, h2, h3⟩

theorem fetch_pexels_eq {env : Env} {q id : String} (hkey : env.pexelsKey = true)
    {rq : String} (hrq : refine_query q none none = some rq)
    {base : Int} (hbase : pyIntOfString (lastUnderscoreSeg id) = some base) :
    fetch_image_from_pexels env q id =
      pexelsAttempts env rq (pySplitWs rq) 3 (base + 1) none := by
  unfold fetch_image_from_pexels
  rw [hkey, hrq, hbase]
  rfl

theorem fetch_pixabay_eq {env : Env} {q id : String} (hkey : env.pixabayKey = true)
    {rq : String} (hrq : refine_query q none none = some rq)
    {base : Int} (hbase : pyIntOfString (lastUnderscoreSeg id) = some base) :
    fetch_image_from_pixabay env q id =
      pixabayAttempts env rq (pySplitWs rq) 3 (base + 1) none := by
  unfold fetch_image_from_pixabay
  rw [hkey, hrq, hbase]
  rfl

theorem genAlt_retried_eq (b : String) (p f : Option String) :
    generate_alternative_queries_retried b p f = generate_alternative_queries b p f := by
  unfold generate_alternative_queries_retried tenacityRetry tenacityRetryGo
  cases hg : generate_alternative_queries b p f with
  | ok a => rfl
  | error e => rfl

theorem table_alts_fixed :
    ∀ e ∈ term_associations, ∀ w ∈ e.2, refine_query w none none = some w := by decide

theorem genAlt_queries_fixed {rq : String} {p f : Option String} {alts : List String}
    (hfix : refine_query rq none none = some rq)
    (h : generate_alternative_queries rq p f = .ok alts) :
    ∀ a ∈ alts, refine_query a none none = some a := by
  unfold generate_alternative_queries at h
  split at h
  · exact absurd h (by simp)
  · rename_i k rest heq
    have halts : [rq] ++ (((term_associations.find? (fun e => e.1 == k)).map
        (fun e => e.2)).getD []) = alts := by
      simpa using h
    subst halts
    intro a ha
    rcases List.mem_append.mp ha with ha | ha
    · rw [List.mem_singleton.mp ha]
      exact hfix
    · cases hfd : term_associations.find? (fun e => e.1 == k) with
      | none => rw [hfd] at ha; exact absurd ha (by simp)
      | some e =>
        rw [hfd] at ha
        simp at ha
        exact table_alts_fixed e (List.mem_of_find?_eq_some hfd) a ha

theorem fetch_image_eq {env : Env} {q id : String} {p f : Option String} {rq : String}
    (hrq : refine_query q p f = some rq) :
    fetch_image env q id p f =
      match fetch_image_from_pexels env rq id with
      | .error e => .error e
      | .ok (some r) => .ok r
      | .ok none =>
        match generate_alternative_queries_retried rq p f with
        | .error e => .error e
        | .ok alternatives => fetchAlternatives env id alternatives := by
  unfold fetch_image
  rw [hrq]

theorem fetchAlternatives_cases (env : Env) (id : String) :
    ∀ (alts : List String) (r : ImageResult),
      fetchAlternatives env id alts = .ok r →
      r = emptyResult ∨
      (∃ q2 pg l ph, env.pexels q2 pg = .ok l ∧ ph ∈ l ∧ r = mkPexelsResult ph) ∨
      (∃ q2 pg l ht, env.pixabay q2 pg = .ok l ∧ ht ∈ l ∧ r = mkPixabayResult ht) := by
  intro alts
  induction alts with
  | nil =>
    intro r h
    left
    have hr : emptyResult = r := by simpa [fetchAlternatives] using h
    exact hr.symm
  | cons a as ih =>
    intro r h
    unfold fetchAlternatives at h
    split at h
    · exact absurd h (by simp)
    · rename_i r0 heq
      have hr : r0 = r := by simpa using h
      subst hr
      exact Or.inr (Or.inl (fetch_pexels_ok_some heq))
    · rename_i heq
      split at h
      · exact absurd h (by simp)
      · rename_i r0 heq2
        have hr : r0 = r := by simpa using h
        subst hr
        exact Or.inr (Or.inr (fetch_pixabay_ok_some heq2))
      · rename_i heq2
        exact ih r h

theorem fetchAlternatives_total (env : Env) (id : String)
    (hk1 : env.pexelsKey = true) (hk2 : env.pixabayKey = true)
    {base : Int} (hbase : pyIntOfString (lastUnderscoreSeg id) = some base) :
    ∀ alts : List String, (∀ a ∈ alts, refine_query a none none = some a) →
      ∃ r, fetchAlternatives env id alts = .ok r := by
  intro alts
  induction alts with
  | nil => exact fun _ => ⟨emptyResult, rfl⟩
  | cons a as ih =>
    intro hfix
    have hpe := fetch_pexels_eq hk1 (hfix a (by simp)) hbase
    have hpi := fetch_pixabay_eq hk2 (hfix a (by simp)) hbase
    rcases pexelsAttempts_ok env a (pySplitWs a) 3 (base + 1) none with ⟨o, ho⟩
    unfold fetchAlternatives
    rw [hpe, ho]
    cases o with
    | some r => exact ⟨r, rfl⟩
    | none =>
      rcases pixabayAttempts_ok env a (pySplitWs a) 3 (base + 1) none with ⟨o2, ho2⟩
      rw [hpi, ho2]
      cases o2 with
      | some r => exact ⟨r, rfl⟩
      | none => exact ih (fun x hx => hfix x (by simp [hx]))

theorem fetchAlternatives_empty (env : Env) (id : String) :
    ∀ alts : List String,
      fetchAlternatives env id alts = .ok emptyResult →
      ∀ a ∈ alts, fetch_image_from_pexels env a id = .ok none ∧
        fetch_image_from_pixabay env a id = .ok none := by
  intro alts
  induction alts with
  | nil => intro _ a ha; exact absurd ha (by simp)
  | cons x as ih =>
    intro h a ha
    unfold fetchAlternatives at h
    split at h
    · exact absurd h (by simp)
    · rename_i r0 heq
      exfalso
      have hr : r0 = emptyResult := by simpa using h
      rcases fetch_pexels_ok_some heq with ⟨q2, pg, l, ph, hl, hm, hmk⟩
      rw [hr] at hmk
      have := congrArg ImageResult.source hmk
      simp [emptyResult, mkPexelsResult] at this
    · rename_i heq
      split at h
      · exact absurd h (by simp)
      · rename_i r0 heq2
        exfalso
        have hr : r0 = emptyResult := by simpa using h
        rcases fetch_pixabay_ok_some heq2 with ⟨q2, pg, l, ht, hl, hm, hmk⟩
        rw [hr] at hmk
        have := congrArg ImageResult.source hmk
        simp [emptyResult, mkPixabayResult] at this
      · rename_i heq2
        rcases List.mem_cons.mp ha with hax | hax
        · subst hax
          exact ⟨heq, heq2⟩
        · exact ih h a hax

/-- C2: for every query, image id and page/folder context, any dict
returned by `fetch_image` — run against providers whose delivered image
URLs are non-empty strings, as the real services guarantee — has an
empty `url` iff it has an empty `source`: the result is either a full
provider success (`source` is `Pexels`/`Pixabay` and `url` a provider
URL) or the total-failure sentinel, never partially empty. -/
theorem fetch_image_url_source_iff (env : Env) (q id : String)
    (p f : Option String) (r : ImageResult)
    (hpe : ∀ s pg l, env.pexels s pg = .ok l → ∀ ph ∈ l, ph.medium ≠ "")
    (hpi : ∀ s pg l, env.pixabay s pg = .ok l → ∀ ht ∈ l, ht.webformatURL ≠ "")
    (h : fetch_image env q id p f = .ok r) :
    (r.url = "" ↔ r.source = "") := by
  have hcases : r = emptyResult ∨
      (∃ q2 pg l ph, env.pexels q2 pg = .ok l ∧ ph ∈ l ∧ r = mkPexelsResult ph) ∨
      (∃ q2 pg l ht, env.pixabay q2 pg = .ok l ∧ ht ∈ l ∧ r = mkPixabayResult ht) := by
    unfold fetch_image at h
    split at h
    · exact absurd h (by simp)
    · split at h
      · exact absurd h (by simp)
      · rename_i r0 heq
        have hr : r0 = r := by simpa using h
        subst hr
        exact Or.inr (Or.inl (fetch_pexels_ok_some heq))
      · split at h
        · exact absurd h (by simp)
        · rename_i alts heq2
          exact fetchAlternatives_cases env id alts r h
  rcases hcases with hr | ⟨q2, pg, l, ph, hl, hm, hr⟩ | ⟨q2, pg, l, ht, hl, hm, hr⟩
  · subst hr
    exact ⟨fun _ => rfl, fun _ => rfl⟩
  · subst hr
    have hu := hpe q2 pg l hl ph hm
    constructor
    · intro hx; exact absurd hx hu
    · intro hx
      have hs : (mkPexelsResult ph).source = "Pexels" := rfl
      rw [hs] at hx
      exact absurd hx (by decide)
  · subst hr
    have hu := hpi q2 pg l hl ht hm
    constructor
    · intro hx; exact absurd hx hu
    · intro hx
      have hs : (mkPixabayResult ht).source = "Pixabay" := rfl
      rw [hs] at hx
      exact absurd hx (by decide)

theorem fetch_image_url_source_iff_witness :
    fetch_image envC2W "fresh apple" "img_0" none none = .ok (mkPexelsResult photoW) ∧
    ((mkPexelsResult photoW).url = "" ↔ (mkPexelsResult photoW).source = "") :=
  ⟨rfl, fetch_image_url_source_iff envC2W "fresh apple" "img_0" none none
    (mkPexelsResult photoW)
    (by
      intro s pg l hl ph hph
      have hl2 : [photoW] = l := by injection hl
      rw [← hl2] at hph
      rw [List.mem_singleton.mp hph]
      decide)
    (by
      intro s pg l hl ht hht
      have hl2 : ([] : List PixabayHit) = l := by injection hl
      rw [← hl2] at hht
      exact absurd hht (by simp))
    rfl⟩

/-- C3 (amended): when the up-to-3-page Pexels search for the refined
query exhausts without any candidate passing the relevance scorer but at
least one candidate was seen, `fetch_image` immediately returns the
first-seen candidate as a success.  Alternative queries are *not*
generated in this situation — contrary to the claim, which has the
alternative-query loop run before the fallback is used; alternatives run
only when the initial call saw no candidate at all, and in that case no
initial fallback exists. -/
theorem fetch_image_initial_fallback_short_circuits (env : Env) (q id : String)
    (p f : Option String) (rq : String) (base : Int) (ph : PexelsPhoto)
    (hkey : env.pexelsKey = true)
    (hrq : refine_query q p f = some rq)
    (hbase : pyIntOfString (lastUnderscoreSeg id) = some base)
    (hnorel : ∀ i : Nat, i < 3 →
      noRelevantAt env rq (pySplitWs rq) ((base + 1) + i) = true)
    (hseen : firstSeenPexels env rq 3 (base + 1) = some ph) :
    fetch_image env q id p f = .ok (mkPexelsResult ph) := by
  have hfix := refine_query_fix hrq
  have hpeq := fetch_pexels_eq hkey hfix hbase
  have hloop := pexelsAttempts_fallback env rq (pySplitWs rq) 3 (base + 1) none
    (fun i hi l hl => noRelevantAt_spec (hnorel i hi) l hl)
  rw [fetch_image_eq hrq, hpeq, hloop, hseen]
  rfl

theorem fetch_image_initial_fallback_short_circuits_witness :
    envC3.pexelsKey = true ∧
    refine_query "fresh apple" (some "fruits") none =
      some "fresh apple fruit organic banana" ∧
    pyIntOfString (lastUnderscoreSeg "img_0") = some 0 ∧
    (∀ i : Nat, i < 3 → noRelevantAt envC3 "fresh apple fruit organic banana"
      (pySplitWs "fresh apple fruit organic banana") ((0 + 1) + i) = true) ∧
    firstSeenPexels envC3 "fresh apple fruit organic banana" 3 (0 + 1) = some photoX ∧
    fetch_image envC3 "fresh apple" "img_0" (some "fruits") none =
      .ok (mkPexelsResult photoX) :=
  ⟨rfl, by decide, by decide, by decide, by decide,
    fetch_image_initial_fallback_short_circuits envC3 "fresh apple" "img_0"
      (some "fruits") none "fresh apple fruit organic banana" 0 photoX
      rfl (by decide) (by decide) (by decide) (by decide)⟩

/-- C3 counterexample: in `envC3` the initial refined query
`fresh apple fruit organic banana` only ever finds the irrelevant
`photoX`, while the alternative query `fresh food` (which the
context-table would generate) has a relevant hit `photoY`.  The claim
says the pipeline tries the alternatives and returns the fallback only
if none is relevant; the code instead returns the irrelevant first-seen
`photoX` without consulting any alternative. -/
theorem fetch_image_skips_alternatives_cex :
    fetch_image envC3 "fresh apple" "img_0" (some "fruits") none =
      .ok (mkPexelsResult photoX) ∧
    check_relevance (pexelsTags photoX)
      (pySplitWs "fresh apple fruit organic banana") = false ∧
    generate_alternative_queries "fresh apple fruit organic banana" (some "fruits") none =
      .ok ["fresh apple fruit organic banana", "produce", "fresh food", "healthy snack"] ∧
    fetch_image_from_pexels envC3 "fresh food" "img_0" =
      .ok (some (mkPexelsResult photoY)) ∧
    check_relevance (pexelsTags photoY) (pySplitWs "fresh food") = true ∧
    mkPexelsResult photoX ≠ mkPexelsResult photoY :=
  ⟨rfl, by decide, rfl, rfl, by decide, by decide⟩

/-- C4 (amended): when both provider API keys are set, the trailing
`image_id` segment parses as an integer, and a page/folder context with
at least one word is supplied, `fetch_image` never raises — HTTP errors,
malformed payloads and empty pages within the attempt loops are caught
per attempt — and it returns the empty sentinel only when the initial
search and every alternative search saw no candidate on any attempted
page.  (As stated the claim is false: an absent provider key raises
*before* the per-attempt `try`, out of any handler, and a missing
context makes `generate_alternative_queries` raise `IndexError`; see the
counterexample.) -/
theorem fetch_image_total_when_wellformed (env : Env) (q id : String)
    (p f : Option String)
    (hk1 : env.pexelsKey = true) (hk2 : env.pixabayKey = true)
    (hid : (pyIntOfString (lastUnderscoreSeg id)).isSome = true)
    (hp : ctxOkB p = true) (hf : ctxOkB f = true)
    (hc : (pySplitWs (pyLowerS (effContext p f))).isEmpty = false) :
    (∃ r, fetch_image env q id p f = .ok r) ∧
    (∀ rq base, refine_query q p f = some rq →
      pyIntOfString (lastUnderscoreSeg id) = some base →
      fetch_image env q id p f = .ok emptyResult →
      (∀ i : Nat, i < 3 → pexelsEmptyAt env rq ((base + 1) + i)) ∧
      (∀ alts, generate_alternative_queries rq p f = .ok alts →
        ∀ a ∈ alts, (∀ i : Nat, i < 3 → pexelsEmptyAt env a ((base + 1) + i)) ∧
          (∀ i : Nat, i < 3 → pixabayEmptyAt env a ((base + 1) + i)))) := by
  rcases ctxOkB_some hp with ⟨ws1, hp1⟩
  rcases ctxOkB_some hf with ⟨ws2, hf1⟩
  obtain ⟨ws0, hws0⟩ : ∃ ws, refineWords q p f = some ws :=
    ⟨_, by unfold refineWords; rw [hp1, hf1]⟩
  have hrq0 : refine_query q p f = some (joinWordsS ws0) := by
    unfold refine_query
    rw [hws0]
  obtain ⟨base0, hb⟩ : ∃ b, pyIntOfString (lastUnderscoreSeg id) = some b := by
    cases hx : pyIntOfString (lastUnderscoreSeg id) with
    | none => rw [hx] at hid; exact absurd hid (by simp)
    | some b => exact ⟨b, rfl⟩
  have hfix0 := refine_query_fix hrq0
  obtain ⟨alts0, halts0⟩ :
      ∃ alts, generate_alternative_queries (joinWordsS ws0) p f = .ok alts := by
    unfold generate_alternative_queries
    cases hsp : pySplitWs (pyLowerS (effContext p f)) with
    | nil => rw [hsp] at hc; exact absurd hc (by simp)
    | cons k rest => exact ⟨_, rfl⟩
  have hfixAll := genAlt_queries_fixed hfix0 halts0
  have hpeq := fetch_pexels_eq hk1 hfix0 hb
  rcases pexelsAttempts_ok env (joinWordsS ws0) (pySplitWs (joinWordsS ws0)) 3
    (base0 + 1) none with ⟨o, ho⟩
  constructor
  · cases o with
    | some r =>
      refine ⟨r, ?_⟩
      rw [fetch_image_eq hrq0, hpeq, ho]
    | none =>
      rcases fetchAlternatives_total env id hk1 hk2 hb alts0 hfixAll with ⟨r, hr⟩
      refine ⟨r, ?_⟩
      rw [fetch_image_eq hrq0, hpeq, ho, genAlt_retried_eq, halts0]
      exact hr
  · intro rq base hrq hbase hempty
    rw [hrq0] at hrq
    have hrq2 : joinWordsS ws0 = rq := by simpa using hrq
    subst hrq2
    rw [hb] at hbase
    have hbase2 : base0 = base := by simpa using hbase
    subst hbase2
    rw [fetch_image_eq hrq0, hpeq, ho] at hempty
    cases o with
    | some r =>
      exfalso
      have hr : r = emptyResult := by simpa using hempty
      rcases pexelsAttempts_ok_some env (joinWordsS ws0) (pySplitWs (joinWordsS ws0)) 3
        (base0 + 1) none r (by intro ph hph; exact absurd hph (by simp)) ho
        with ⟨pg2, l, ph, _, _, hmk⟩
      rw [hr] at hmk
      have := congrArg ImageResult.source hmk
      simp [emptyResult, mkPexelsResult] at this
    | none =>
      refine ⟨(pexelsAttempts_none_iff env (joinWordsS ws0)
        (pySplitWs (joinWordsS ws0)) 3 (base0 + 1)).mp ho, ?_⟩
      rw [genAlt_retried_eq, halts0] at hempty
      intro alts halts
      rw [halts0] at halts
      have halts2 : alts0 = alts := by simpa using halts
      subst halts2
      intro a ha
      have hempty2 : fetchAlternatives env id alts0 = .ok emptyResult := by
        simpa using hempty
      rcases fetchAlternatives_empty env id alts0 hempty2 a ha with ⟨hpa, hpb⟩
      rw [fetch_pexels_eq hk1 (hfixAll a ha) hb] at hpa
      rw [fetch_pixabay_eq hk2 (hfixAll a ha) hb] at hpb
      exact ⟨(pexelsAttempts_none_iff env a (pySplitWs a) 3 (base0 + 1)).mp hpa,
        (pixabayAttempts_none_iff env a (pySplitWs a) 3 (base0 + 1)).mp hpb⟩

theorem fetch_image_total_when_wellformed_witness :
    envAllEmpty.pexelsKey = true ∧ envAllEmpty.pixabayKey = true ∧
    (pyIntOfString (lastUnderscoreSeg "img_0")).isSome = true ∧
    ctxOkB (some "fruits") = true ∧ ctxOkB (none : Option String) = true ∧
    (pySplitWs (pyLowerS (effContext (some "fruits") none))).isEmpty = false ∧
    ∃ r, fetch_image envAllEmpty "fresh apple" "img_0" (some "fruits") none = .ok r :=
  ⟨rfl, rfl, by decide, by decide, rfl, by decide,
    (fetch_image_total_when_wellformed envAllEmpty "fresh apple" "img_0"
      (some "fruits") none rfl rfl (by decide) (by decide) rfl (by decide)).1⟩

/-- C4 counterexample: `fetch_image` itself raises.  With the Pexels API
key unset the `raise Exception` sits before the per-attempt
`try`/`except` and propagates out of `fetch_image`; and even with both
keys set, a call without any page/folder context raises `IndexError`
inside `generate_alternative_queries` as soon as the initial search
comes back empty — in neither case is the empty sentinel returned. -/
theorem fetch_image_raises_on_missing_key_cex :
    fetch_image envNoKey "fresh apple" "img_0" (some "fruits") none = .error () ∧
    fetch_image envAllEmpty "fresh apple" "img_0" none none = .error () :=
  ⟨rfl, rfl⟩

end WebGen
